import Mathlib
set_option autoImplicit false
set_option maxRecDepth 8000

/-!
Verification development for the zcashd wallet-dump reconstruction core
(`zewif-zcashd`).

The repository's orchestration code (`zcashd_parser.rs`), its error taxonomy
(`error.rs`), the context-wrapping decode path (`parse_macro.rs`) and the
secret-key decoder (`priv_key.rs`) are embedded shallowly below.  Parts of the
crate that the orchestration calls but whose sources are not available here
(the record store `zcashd_dump.rs`, the cursor/`CompactSize` runtime of
`parser/`, and the leaf payload decoders such as `PubKey` or `WalletTx`) are
either modelled from the specification (store, cursor, varint codec — the spec
fixes their contracts exactly) or kept abstract as decoder parameters: the
orchestration never inspects the decoded values, so every theorem about it is
stated for arbitrary decoders and witnessed with simple concrete ones.
-/

/-- Raw byte strings.  Rust `Vec<u8>` / `&[u8]`; entries are byte values. -/
abbrev Bytes := List Nat

/-- Record key: the category token (keyname) plus the category-specific
payload bytes.  Mirrors `zcashd_dump::DBKey` as used by the orchestration
(`DBKey::new("keymeta", &key.data)`, `key.data`). -/
structure DBKey where
  keyname : String
  data : Bytes
deriving DecidableEq

/-- Record value bytes, `zcashd_dump::DBValue`. -/
abbrev DBValue := Bytes

/-- One raw record of the dump. -/
abbrev Record := DBKey × DBValue

/- Leaf payload types.  Their decoders live in crates or files not available
here, so each is an opaque carrier of the bytes it was decoded from (plus the
fields the orchestration itself projects or assembles). -/

/-- Transparent public key (locator of `key`/`keymeta`/`wkey` records). -/
structure PubKey where
  data : Bytes
deriving DecidableEq

/-- Transparent or shielded address decoded from `name`/`purpose` keys. -/
structure Address where
  data : Bytes
deriving DecidableEq

/-- Transaction identifier decoded from `tx` and `recipientmapping` keys. -/
structure TxId where
  data : Bytes
deriving DecidableEq

/-- Key metadata decoded from `keymeta`/`sapzkeymeta`/`zkeymeta` values. -/
structure KeyMetadata where
  data : Bytes
deriving DecidableEq

/-- Full wallet transaction decoded from a `tx` record value. -/
structure WalletTx where
  data : Bytes
deriving DecidableEq

structure ClientVersion where
  data : Bytes
deriving DecidableEq

structure BlockLocator where
  data : Bytes
deriving DecidableEq

structure NetworkInfo where
  data : Bytes
deriving DecidableEq

structure OrchardNoteCommitmentTree where
  data : Bytes
deriving DecidableEq

structure MnemonicHDChain where
  data : Bytes
deriving DecidableEq

structure SeedFingerprint where
  data : Bytes
deriving DecidableEq

structure KeyPoolEntry where
  data : Bytes
deriving DecidableEq

structure SaplingIncomingViewingKey where
  data : Bytes
deriving DecidableEq

structure SaplingZPaymentAddress where
  data : Bytes
deriving DecidableEq

/-- Sapling `zip32::ExtendedSpendingKey` decoded from a `sapzkey` value. -/
structure ExtendedSpendingKey where
  data : Bytes
deriving DecidableEq

structure SproutPaymentAddress where
  data : Bytes
deriving DecidableEq

structure u252 where
  data : Bytes
deriving DecidableEq

structure SecondsSinceEpoch where
  data : Bytes
deriving DecidableEq

structure RecipientAddress where
  data : Bytes
deriving DecidableEq

structure UnifiedAddressMetadata where
  data : Bytes
deriving DecidableEq

structure UfvkFingerprint where
  data : Bytes
deriving DecidableEq

structure UnifiedFullViewingKey where
  data : Bytes
deriving DecidableEq

/-- Unified account metadata; the orchestration projects its
`ufvk_fingerprint()` to key the account map. -/
structure UnifiedAccountMetadata where
  ufvk_fingerprint : UfvkFingerprint
  rest : Bytes
deriving DecidableEq

/-- The zewif `Data` type: an independently stored byte string. -/
structure Data where
  data : Bytes
deriving DecidableEq

/-- The zewif `u256` 32-byte hash type (trailing hash of a `PrivKey`). -/
structure u256 where
  data : Bytes
deriving DecidableEq

/-- Error type of the crate.  Structured constructors mirror the variants of
`error.rs` that the embedded code can produce; `message` mirrors ad-hoc
`anyhow::bail!` messages of `zcashd_parser.rs`.  Formatted `bail!` messages
that interpolate a decoded value are kept structured (constructor plus the
interpolated value) so that no display instance for opaque payloads is
needed. -/
inductive Err where
  /-- `Error::Context`: a wrapped source error with a context message. -/
  | context (message : String) (source : Err)
  /-- An `anyhow::bail!` with a fixed message string. -/
  | message (s : String)
  /-- `Error::BufferUnderflow { offset, needed, remaining }`. -/
  | bufferUnderflow (offset needed remaining : Nat)
  /-- `Error::BufferNotConsumed { remaining }`. -/
  | bufferNotConsumed (remaining : Nat)
  /-- `Error::InvalidCompactSize { prefix, value }`. -/
  | invalidCompactSize (pfx value : Nat)
  /-- `Error::InvalidLength { kind, expected, actual }`. -/
  | invalidLength (kind : String) (expected : List Nat) (actual : Nat)
  /-- `Error::UnexpectedRecordCount`-style failure of a one-record lookup. -/
  | unexpectedRecordCount (keyname : String) (count : Nat)
  /-- Modelled from the spec: `records_for(keyname)` fails when the category
  is entirely unknown to the store (`zcashd_dump.rs` is not in `src/`). -/
  | recordsNotFound (keyname : String)
  /-- Modelled from the spec: `value_for_key` fails when no record has the
  given key (`zcashd_dump.rs` is not in `src/`). -/
  | keyNotFound (keyname : String) (data : Bytes)
  /-- `bail!("Duplicate address found: {}", address)`. -/
  | duplicateAddressFound (a : Address)
  /-- `bail!("Duplicate payment address found: {:?}", payment_address)`. -/
  | duplicatePaymentAddressFound (a : SaplingZPaymentAddress)
  /-- `bail!("Duplicate transaction found: {:?}", txid)`. -/
  | duplicateTransactionFound (t : TxId)
  /-- `bail!("Unexpected value for ...: 0x{:08x}", v)` in unified parsing. -/
  | unexpectedUnifiedValue (kind : String) (value : Nat)
deriving DecidableEq

instance {ε α : Type} [DecidableEq ε] [DecidableEq α] : DecidableEq (Except ε α) :=
  fun x y =>
  match x, y with
  | .ok a, .ok b => if h : a = b then .isTrue (by rw [h]) else .isFalse (by simp [h])
  | .error e, .error f => if h : e = f then .isTrue (by rw [h]) else .isFalse (by simp [h])
  | .ok _, .error _ => .isFalse (by simp)
  | .error _, .ok _ => .isFalse (by simp)

/-- `Error::with_context` from `error.rs`: wrap a source error with a
message, retaining the source as the cause. -/
def Err.with_context (source : Err) (message : String) : Err :=
  Err.context message source

/-- The `#[source]` cause of an error: only the `Context` variant has one. -/
def Err.sourceOf : Err → Option Err
  | .context _ s => some s
  | _ => none

/-- The display message of an error's own layer (the `Context` variant
displays `{message}`). -/
def Err.messageOf : Err → Option String
  | .context m _ => some m
  | _ => none

/-- The innermost (root) cause of an error: follow `Context` sources. -/
def Err.rootCause : Err → Err
  | .context _ s => Err.rootCause s
  | e => e

/- Hex encoding, as `hex::ToHex::encode_hex::<String>` (lowercase). -/

def hexDigitChar (n : Nat) : Char :=
  if n < 10 then Char.ofNat (48 + n) else Char.ofNat (87 + n)

def hexEncodeByte (b : Nat) : List Char :=
  [hexDigitChar ((b / 16) % 16), hexDigitChar (b % 16)]

/-- Lowercase hex rendering of a byte string. -/
def hexEncode (bs : Bytes) : String :=
  String.mk (bs.flatMap hexEncodeByte)

/- The cursor.  Modelled from the spec (§4.1): a bounds-checked sequential
byte reader with position tracking; `next(n)` fails with buffer-underflow
carrying offset/needed/remaining, `check_finished` fails with
buffer-not-consumed carrying the leftover count. -/

structure Parser where
  data : Bytes
  offset : Nat
deriving DecidableEq

namespace Parser

def new (data : Bytes) : Parser := ⟨data, 0⟩

def remaining (p : Parser) : Nat := p.data.length - p.offset

/-- Modelled from the spec: `next(n)` returns the next `n` bytes and
advances, or fails with `BufferUnderflow { offset, needed, remaining }`. -/
def next (p : Parser) (n : Nat) : Except Err (Bytes × Parser) :=
  if n ≤ p.remaining then
    .ok ((p.data.drop p.offset).take n, ⟨p.data, p.offset + n⟩)
  else
    .error (.bufferUnderflow p.offset n p.remaining)

/-- Modelled from the spec: fails with `BufferNotConsumed` carrying the count
of leftover bytes when the cursor has not reached the end. -/
def check_finished (p : Parser) : Except Err Unit :=
  if p.offset = p.data.length then .ok () else .error (.bufferNotConsumed p.remaining)

end Parser

/-- A cursor-based decoder for `α`: the shape of every `Parse` impl. -/
abbrev ParserM (α : Type) := Parser → Except Err (α × Parser)

/-- Modelled from the spec (§4.3): the standalone-buffer decode path runs the
cursor decode on a fresh cursor and asserts the buffer was fully consumed. -/
def parseBuf {α : Type} (f : ParserM α) (buf : Bytes) : Except Err α :=
  match f (Parser.new buf) with
  | .error e => .error e
  | .ok (a, p) =>
    match p.check_finished with
    | .ok _ => .ok a
    | .error e => .error e

/-- The `parse!(parser, ..., context)` path of `parse_macro.rs`: run the
cursor decode, wrapping any failure via `Error::with_context` with the
message `"Parsing <context>"`. -/
def parseCtx {α : Type} (desc : String) (f : ParserM α) : ParserM α :=
  fun p => (f p).mapError (fun err => Err.with_context err ("Parsing " ++ desc))

/-- The `parse!(buf = ..., ..., context)` path of `parse_macro.rs`: decode
from a standalone buffer, wrapping any failure via `Error::with_context` with
the message `"Parsing <context>"`. -/
def parseBufCtx {α : Type} (desc : String) (f : ParserM α) (buf : Bytes) : Except Err α :=
  (parseBuf f buf).mapError (fun err => Err.with_context err ("Parsing " ++ desc))

/- The canonical variable-length integer codec.  Modelled from the spec
(§4.2): one byte below 0xFD is the value itself; otherwise a 0xFD/0xFE/0xFF
marker byte is followed by 2/4/8 little-endian bytes, and an encoding wider
than the minimal canonical form is rejected with `InvalidCompactSize`. -/

def decodeLE : Bytes → Nat
  | [] => 0
  | b :: bs => b + 256 * decodeLE bs

def leBytes : Nat → Nat → Bytes
  | 0, _ => []
  | w + 1, n => n % 256 :: leBytes w (n / 256)

namespace CompactSize

/-- Modelled from the spec (§4.2): decode a canonical CompactSize. -/
def parse : ParserM Nat := fun p => do
  let (b, p) ← p.next 1
  match b with
  | [b0] =>
    if b0 < 0xFD then
      .ok (b0, p)
    else do
      let w : Nat := if b0 = 0xFD then 2 else if b0 = 0xFE then 4 else 8
      let lo : Nat := if b0 = 0xFD then 0xFD else if b0 = 0xFE then 0x10000 else 0x100000000
      let (bs, p) ← p.next w
      let v := decodeLE bs
      if v < lo then .error (.invalidCompactSize b0 v) else .ok (v, p)
  | _ => .error (.message "CompactSize: internal")

end CompactSize

/-- Minimal-width canonical CompactSize encoding (the encode direction of the
codec, §4.2). -/
def encodeCompactSize (n : Nat) : Bytes :=
  if n < 0xFD then [n]
  else if n < 0x10000 then 0xFD :: leBytes 2 n
  else if n < 0x100000000 then 0xFE :: leBytes 4 n
  else 0xFF :: leBytes 8 n

namespace u256

/-- The zewif `u256` decode: a 32-byte blob read from the cursor. -/
def parse : ParserM u256 := fun p =>
  (p.next 32).map (fun x => (⟨x.1⟩, x.2))

end u256

/-- Transparent secret key, `transparent/priv_key.rs`: the secret material
and the trailing 32-byte hash. -/
structure PrivKey where
  data : Data
  hash : u256
deriving DecidableEq

namespace PrivKey

/-- Translated from `priv_key.rs`: read a CompactSize length, reject any
length other than 214 or 279 with `InvalidLength`, then read that many bytes
of secret material and a trailing `u256` hash. -/
def parse : ParserM PrivKey := fun p => do
  let (length, p) ← parseCtx "PrivKey size" CompactSize.parse p
  if length ≠ 214 ∧ length ≠ 279 then
    .error (.invalidLength "privkey" [214, 279] length)
  else do
    let (data, p) ← parseCtx "PrivKey"
      (fun q => (q.next length).map (fun x => (Data.mk x.1, x.2))) p
    let (hash, p) ← parseCtx "PrivKey hash" u256.parse p
    .ok (⟨data, hash⟩, p)

end PrivKey

/- The record store.  Modelled from the spec (§4.5): `zcashd_dump.rs` is not
in `src/`.  The store owns the raw records (insertion order preserved,
grouping by keyname is selection); `records_for` fails when the category is
entirely unknown, `record_for` demands exactly one record, and the presence
checks implement optional categories. -/

structure ZcashdDump where
  records : List Record
deriving DecidableEq

namespace ZcashdDump

/-- Modelled from the spec: all records of a category, in insertion order;
fails when the category is entirely unknown to the store. -/
def records_for_keyname (d : ZcashdDump) (kn : String) : Except Err (List Record) :=
  let rs := d.records.filter (fun r => r.1.keyname = kn)
  if rs.isEmpty then .error (.recordsNotFound kn) else .ok rs

/-- Modelled from the spec: does the category have any records. -/
def has_keys_for_keyname (d : ZcashdDump) (kn : String) : Bool :=
  d.records.any (fun r => r.1.keyname = kn)

/-- Modelled from the spec: presence of the value of a scalar category (the
scalar categories hold exactly one record when present). -/
def has_value_for_keyname (d : ZcashdDump) (kn : String) : Bool :=
  d.has_keys_for_keyname kn

/-- Modelled from the spec: exactly one record for the keyname, failing with
an unexpected-count condition when zero or more than one exist. -/
def record_for_keyname (d : ZcashdDump) (kn : String) : Except Err Record :=
  match d.records.filter (fun r => r.1.keyname = kn) with
  | [r] => .ok r
  | rs => .error (.unexpectedRecordCount kn rs.length)

/-- Modelled from the spec: the value stored under an exact key. -/
def value_for_key (d : ZcashdDump) (k : DBKey) : Except Err DBValue :=
  match d.records.find? (fun r => r.1 = k) with
  | some r => .ok r.2
  | none => .error (.keyNotFound k.keyname k.data)

/-- The identities of all records of the dump (`dump.records().keys()`). -/
def allKeys (d : ZcashdDump) : Finset DBKey :=
  (d.records.map Prod.fst).toFinset

end ZcashdDump

/- Assembled entities of the wallet model. -/

/-- Transparent keypair assembled by `KeyPair::new` (validation abstract). -/
structure KeyPair where
  pubkey : PubKey
  privkey : PrivKey
  metadata : KeyMetadata
deriving DecidableEq

/-- Sapling keypair assembled by `SaplingKey::new` (validation abstract). -/
structure SaplingKey where
  ivk : SaplingIncomingViewingKey
  key : ExtendedSpendingKey
  metadata : KeyMetadata
deriving DecidableEq

/-- Sprout keypair, `SproutSpendingKey::new` (infallible). -/
structure SproutSpendingKey where
  key : u252
  metadata : KeyMetadata
deriving DecidableEq

/-- Wallet key entity of a `wkey` record. -/
structure WalletKey where
  pubkey : PubKey
  privkey : PrivKey
  time_created : SecondsSinceEpoch
  time_expires : SecondsSinceEpoch
  comment : String
deriving DecidableEq

/-- Recipient mapping entity, `RecipientMapping::new`. -/
structure RecipientMapping where
  recipient_address : RecipientAddress
  unified_address : String
deriving DecidableEq

/-- Mnemonic with the fingerprint attached via `set_fingerprint`. -/
structure Bip39Mnemonic where
  data : Bytes
  fingerprint : Option SeedFingerprint
deriving DecidableEq

/-- Legacy seed, `LegacySeed::new(seed_data, Some(fingerprint))`. -/
structure LegacySeed where
  data : Data
  fingerprint : Option SeedFingerprint
deriving DecidableEq

/-- Unified-account aggregate of the three `unified*` categories. -/
structure UnifiedAccounts where
  address_metadata : List UnifiedAddressMetadata
  full_viewing_keys : List (UfvkFingerprint × UnifiedFullViewingKey)
  account_metadata : List (UfvkFingerprint × UnifiedAccountMetadata)
deriving DecidableEq

/-- The empty aggregate, `UnifiedAccounts::none()`. -/
def UnifiedAccounts.none : UnifiedAccounts := ⟨[], [], []⟩

/- The leaf decoders the orchestration invokes.  Their implementations are
not part of the embedded core (other crates / files not in `src/`), so the
orchestration is parameterized over them; the claims hold for arbitrary
decoders. -/

structure Decoders where
  pubKey : ParserM PubKey
  address : ParserM Address
  stringD : ParserM String
  i64D : ParserM Int
  u32D : ParserM Nat
  txId : ParserM TxId
  keyMetadata : ParserM KeyMetadata
  walletTx : ParserM WalletTx
  clientVersion : ParserM ClientVersion
  blockLocator : ParserM BlockLocator
  networkInfo : ParserM NetworkInfo
  orchardTree : ParserM OrchardNoteCommitmentTree
  mnemonicHDChain : ParserM MnemonicHDChain
  bip39Mnemonic : ParserM Bytes
  seedFingerprint : ParserM SeedFingerprint
  dataD : ParserM Data
  keyPoolEntry : ParserM KeyPoolEntry
  saplingIvk : ParserM SaplingIncomingViewingKey
  saplingZAddr : ParserM SaplingZPaymentAddress
  extSpendingKey : ParserM ExtendedSpendingKey
  sproutAddr : ParserM SproutPaymentAddress
  u252D : ParserM u252
  secondsSinceEpoch : ParserM SecondsSinceEpoch
  recipientAddress : ParserM RecipientAddress
  unifiedAddrMeta : ParserM UnifiedAddressMetadata
  unifiedAccountMeta : ParserM UnifiedAccountMetadata
  ufvkFingerprint : ParserM UfvkFingerprint
  unifiedFvk : ParserM UnifiedFullViewingKey
  mkKeyPair : PubKey → PrivKey → KeyMetadata → Except Err KeyPair
  mkSaplingKey : SaplingIncomingViewingKey → ExtendedSpendingKey → KeyMetadata →
    Except Err SaplingKey


/- Hash maps.  Rust `HashMap` is modelled as an association list with
replacing insert; map equality in Rust compares the key-value sets, which for
these maps (unique keys by construction) is lookup equality, `hmEquiv`. -/

def hmLookup {K V : Type} [DecidableEq K] (k : K) : List (K × V) → Option V
  | [] => none
  | (k', v) :: rest => if k' = k then some v else hmLookup k rest

def hmContains {K V : Type} [DecidableEq K] (k : K) (m : List (K × V)) : Bool :=
  (hmLookup k m).isSome

/-- The `HashMap::insert` operation: replace in place or append. -/
def hmInsert {K V : Type} [DecidableEq K] (k : K) (v : V) : List (K × V) → List (K × V)
  | [] => [(k, v)]
  | (k', v') :: rest => if k' = k then (k, v) :: rest else (k', v') :: hmInsert k v rest

/-- The `map.entry(k).or_default().push(v)` operation on a map of vectors. -/
def hmPush {K V : Type} [DecidableEq K] (k : K) (v : V)
    (m : List (K × List V)) : List (K × List V) :=
  match hmLookup k m with
  | some l => hmInsert k (l ++ [v]) m
  | none => m ++ [(k, [v])]

abbrev Keys := List (PubKey × KeyPair)
abbrev SaplingKeys := List (SaplingIncomingViewingKey × SaplingKey)
abbrev SproutKeys := List (SproutPaymentAddress × SproutSpendingKey)
abbrev WalletKeys := List (PubKey × WalletKey)

/-- Diagnostic emitted on the lenient transaction path: the hex-encoded raw
value bytes and the decode error (the `eprintln!` side channel). -/
structure TxDiag where
  hexData : String
  err : Err
deriving DecidableEq

/-- Convenience for `Result::context(msg)`: wrap any error of a fallible step
with a context message (`anyhow`/`ResultExt::context`). -/
def ctxE {α : Type} (msg : String) (x : Except Err α) : Except Err α :=
  x.mapError (Err.context msg)

/-- Lexicographic byte-string comparison, Rust `&[u8]::cmp` as a ≤ test
(`key1.data.cmp(&key2.data)` in `parse_transactions`). -/
def bytesLe : Bytes → Bytes → Bool
  | [], _ => true
  | _ :: _, [] => false
  | a :: as, b :: bs => if a < b then true else if a = b then bytesLe as bs else false

/-- Sort key of `sorted_records.sort_by(|(key1, _), (key2, _)| key1.data.cmp(&key2.data))`. -/
def recordLe (r₁ r₂ : Record) : Bool := bytesLe r₁.1.data r₂.1.data

namespace ZcashdParser

/-- The parser's `value_for_keyname`: fetch the one record of a scalar
category, marking it claimed.  The source marks before fetching; a mark on an
aborting path is unobservable because a failed pass returns no unclaimed
set. -/
def value_for_keyname (d : ZcashdDump) (kn : String) : Except Err (DBValue × Finset DBKey) :=
  match d.record_for_keyname kn with
  | .ok (k, v) => .ok (v, {k})
  | .error e => .error e

def parse_i64 (dec : Decoders) (d : ZcashdDump) (kn : String) :
    Except Err (Int × Finset DBKey) := do
  let (value, c) ← value_for_keyname d kn
  let x ← parseBufCtx ("i64 for keyname: " ++ kn) dec.i64D value
  .ok (x, c)

def parse_opt_i64 (dec : Decoders) (d : ZcashdDump) (kn : String) :
    Except Err (Option Int × Finset DBKey) :=
  if d.has_value_for_keyname kn then do
    let (x, c) ← parse_i64 dec d kn
    .ok (some x, c)
  else
    .ok (none, ∅)

def parse_client_version (dec : Decoders) (d : ZcashdDump) (kn : String) :
    Except Err (ClientVersion × Finset DBKey) := do
  let (value, c) ← value_for_keyname d kn
  let x ← parseBufCtx ("client version for keyname: " ++ kn) dec.clientVersion value
  .ok (x, c)

def parse_block_locator (dec : Decoders) (d : ZcashdDump) (kn : String) :
    Except Err (BlockLocator × Finset DBKey) := do
  let (value, c) ← value_for_keyname d kn
  let x ← parseBufCtx ("block locator for keyname: " ++ kn) dec.blockLocator value
  .ok (x, c)

def parse_opt_block_locator (dec : Decoders) (d : ZcashdDump) (kn : String) :
    Except Err (Option BlockLocator × Finset DBKey) :=
  if d.has_value_for_keyname kn then do
    let (x, c) ← parse_block_locator dec d kn
    .ok (some x, c)
  else
    .ok (none, ∅)

/-- Loop body of `parse_keys`: decode locator and secret of each `key`
record, look up and decode the co-keyed `keymeta` record, assemble the
keypair, and mark both records claimed. -/
def parseKeysGo (dec : Decoders) (d : ZcashdDump) :
    List Record → Keys → Finset DBKey → Except Err (Keys × Finset DBKey)
  | [], m, c => .ok (m, c)
  | (key, value) :: rest, m, c => do
    let pubkey ← parseBufCtx "pubkey" dec.pubKey key.data
    let privkey ← parseBufCtx "privkey" PrivKey.parse value
    let metakey : DBKey := ⟨"keymeta", key.data⟩
    let metadata_binary ← ctxE "Getting metadata" (d.value_for_key metakey)
    let metadata ← parseBufCtx "metadata" dec.keyMetadata metadata_binary
    let keypair ← ctxE "Creating keypair" (dec.mkKeyPair pubkey privkey metadata)
    parseKeysGo dec d rest (hmInsert pubkey keypair m) (insert key (insert metakey c))

def parse_keys (dec : Decoders) (d : ZcashdDump) : Except Err (Keys × Finset DBKey) := do
  let key_records ← ctxE "Getting \x27key\x27 records" (d.records_for_keyname "key")
  let keymeta_records ← ctxE "Getting \x27keymeta\x27 records" (d.records_for_keyname "keymeta")
  if key_records.length ≠ keymeta_records.length then
    .error (.message "Mismatched key and keymeta records")
  else
    parseKeysGo dec d key_records [] ∅

/-- Loop body of `parse_wallet_keys`: the `wkey` value is decoded with a
sequential cursor (privkey, two timestamps, comment) with no
`check_finished`. -/
def parseWalletKeysGo (dec : Decoders) :
    List Record → WalletKeys → Finset DBKey → Except Err (WalletKeys × Finset DBKey)
  | [], m, c => .ok (m, c)
  | (key, value) :: rest, m, c => do
    let pubkey ← parseBufCtx "pubkey" dec.pubKey key.data
    let p₀ := Parser.new value
    let (privkey, p₁) ← parseCtx "privkey" PrivKey.parse p₀
    let (time_created, p₂) ← parseCtx "time_created" dec.secondsSinceEpoch p₁
    let (time_expires, p₃) ← parseCtx "time_expires" dec.secondsSinceEpoch p₂
    let (comment, _) ← parseCtx "comment" dec.stringD p₃
    let wallet_key : WalletKey := ⟨pubkey, privkey, time_created, time_expires, comment⟩
    parseWalletKeysGo dec rest (hmInsert pubkey wallet_key m) (insert key c)

def parse_wallet_keys (dec : Decoders) (d : ZcashdDump) :
    Except Err (Option WalletKeys × Finset DBKey) :=
  if ¬ d.has_keys_for_keyname "wkey" then
    .ok (none, ∅)
  else do
    let key_records ← ctxE "Getting \x27wkey\x27 records" (d.records_for_keyname "wkey")
    if key_records.isEmpty then
      .ok (none, ∅)
    else do
      let (m, c) ← parseWalletKeysGo dec key_records [] ∅
      .ok (some m, c)

/-- Loop body of `parse_sapling_keys`, the `sapzkey`/`sapzkeymeta` pair. -/
def parseSaplingKeysGo (dec : Decoders) (d : ZcashdDump) :
    List Record → SaplingKeys → Finset DBKey → Except Err (SaplingKeys × Finset DBKey)
  | [], m, c => .ok (m, c)
  | (key, value) :: rest, m, c => do
    let ivk ← parseBufCtx "ivk" dec.saplingIvk key.data
    let spending_key ← parseBufCtx "spending_key" dec.extSpendingKey value
    let metakey : DBKey := ⟨"sapzkeymeta", key.data⟩
    let metadata_binary ← ctxE "Getting sapzkeymeta metadata" (d.value_for_key metakey)
    let metadata ← parseBufCtx "sapzkeymeta metadata" dec.keyMetadata metadata_binary
    let keypair ← ctxE "Creating keypair" (dec.mkSaplingKey ivk spending_key metadata)
    parseSaplingKeysGo dec d rest (hmInsert ivk keypair m) (insert key (insert metakey c))

def parse_sapling_keys (dec : Decoders) (d : ZcashdDump) :
    Except Err (SaplingKeys × Finset DBKey) :=
  if ¬ d.has_keys_for_keyname "sapzkey" then
    .ok ([], ∅)
  else do
    let key_records ← ctxE "Getting \x27sapzkey\x27 records" (d.records_for_keyname "sapzkey")
    let keymeta_records ← ctxE "Getting \x27sapzkeymeta\x27 records"
      (d.records_for_keyname "sapzkeymeta")
    if key_records.length ≠ keymeta_records.length then
      .error (.message "Mismatched sapzkey and sapzkeymeta records")
    else
      parseSaplingKeysGo dec d key_records [] ∅

/-- Loop body of `parse_sprout_keys`, the `zkey`/`zkeymeta` pair. -/
def parseSproutKeysGo (dec : Decoders) (d : ZcashdDump) :
    List Record → SproutKeys → Finset DBKey → Except Err (SproutKeys × Finset DBKey)
  | [], m, c => .ok (m, c)
  | (key, value) :: rest, m, c => do
    let payment_address ← parseBufCtx "payment_address" dec.sproutAddr key.data
    let spending_key ← parseBufCtx "spending_key" dec.u252D value
    let metakey : DBKey := ⟨"zkeymeta", key.data⟩
    let metadata_binary ← ctxE "Getting metadata" (d.value_for_key metakey)
    let metadata ← parseBufCtx "metadata" dec.keyMetadata metadata_binary
    let keypair : SproutSpendingKey := ⟨spending_key, metadata⟩
    parseSproutKeysGo dec d rest (hmInsert payment_address keypair m)
      (insert key (insert metakey c))

def parse_sprout_keys (dec : Decoders) (d : ZcashdDump) :
    Except Err (Option SproutKeys × Finset DBKey) :=
  if ¬ d.has_keys_for_keyname "zkey" then
    .ok (none, ∅)
  else do
    let zkey_records ← ctxE "Getting \x27zkey\x27 records" (d.records_for_keyname "zkey")
    let zkeymeta_records ← ctxE "Getting \x27zkeymeta\x27 records"
      (d.records_for_keyname "zkeymeta")
    if zkey_records.length ≠ zkeymeta_records.length then
      .error (.message "Mismatched zkey and zkeymeta records")
    else do
      let (m, c) ← parseSproutKeysGo dec d zkey_records [] ∅
      .ok (some m, c)

def parse_default_key (dec : Decoders) (d : ZcashdDump) :
    Except Err (PubKey × Finset DBKey) := do
  let (value, c) ← value_for_keyname d "defaultkey"
  let x ← parseBufCtx "defaultkey" dec.pubKey value
  .ok (x, c)

def parse_mnemonic_hd_chain (dec : Decoders) (d : ZcashdDump) :
    Except Err (MnemonicHDChain × Finset DBKey) := do
  let (value, c) ← value_for_keyname d "mnemonichdchain"
  let x ← parseBufCtx "mnemonichdchain" dec.mnemonicHDChain value
  .ok (x, c)

/-- Loop body of `parse_send_recipients`: the record key is decoded with a
sequential cursor (txid, recipient address, `check_finished`), and the
mapping is pushed onto the vector of its txid (`entry(txid).or_default()
.push(...)`) — duplicate txids accumulate. -/
def parseSendRecipientsGo (dec : Decoders) :
    List Record → List (TxId × List RecipientMapping) → Finset DBKey →
    Except Err (List (TxId × List RecipientMapping) × Finset DBKey)
  | [], m, c => .ok (m, c)
  | (key, value) :: rest, m, c => do
    let p₀ := Parser.new key.data
    let (txid, p₁) ← parseCtx "txid" dec.txId p₀
    let (recipient_address, p₂) ← parseCtx "recipient_address" dec.recipientAddress p₁
    let _ ← p₂.check_finished
    let unified_address ← parseBufCtx "unified_address" dec.stringD value
    let recipient_mapping : RecipientMapping := ⟨recipient_address, unified_address⟩
    parseSendRecipientsGo dec rest (hmPush txid recipient_mapping m) (insert key c)

def parse_send_recipients (dec : Decoders) (d : ZcashdDump) :
    Except Err (List (TxId × List RecipientMapping) × Finset DBKey) :=
  if ¬ d.has_keys_for_keyname "recipientmapping" then
    .ok ([], ∅)
  else do
    let records ← ctxE "Getting \x27recipientmapping\x27 records"
      (d.records_for_keyname "recipientmapping")
    parseSendRecipientsGo dec records [] ∅

/-- First loop of `parse_unified_accounts`: `unifiedaddrmeta` records (the
metadata list), each value required to decode to the u32 `0`. -/
def parseUnifiedAddrMetaGo (dec : Decoders) :
    List Record → List UnifiedAddressMetadata → Finset DBKey →
    Except Err (List UnifiedAddressMetadata × Finset DBKey)
  | [], am, c => .ok (am, c)
  | (key, value) :: rest, am, c => do
    let metadata ← parseBufCtx "UnifiedAddressMetadata key" dec.unifiedAddrMeta key.data
    let v ← parseBufCtx "UnifiedAddressMetadata value" dec.u32D value
    if v ≠ 0 then
      .error (.unexpectedUnifiedValue "UnifiedAddressMetadata" v)
    else
      parseUnifiedAddrMetaGo dec rest (am ++ [metadata]) (insert key c)

/-- Second loop of `parse_unified_accounts`: `unifiedaccount` records keyed
by the metadata's viewing-key fingerprint. -/
def parseUnifiedAccountGo (dec : Decoders) :
    List Record → List (UfvkFingerprint × UnifiedAccountMetadata) → Finset DBKey →
    Except Err (List (UfvkFingerprint × UnifiedAccountMetadata) × Finset DBKey)
  | [], m, c => .ok (m, c)
  | (key, value) :: rest, m, c => do
    let metadata ← parseBufCtx "UnifiedAccountMetadata key" dec.unifiedAccountMeta key.data
    let v ← parseBufCtx "UnifiedAccountMetadata value" dec.u32D value
    if v ≠ 0 then
      .error (.unexpectedUnifiedValue "UnifiedAccountMetadata" v)
    else
      parseUnifiedAccountGo dec rest (hmInsert metadata.ufvk_fingerprint metadata m)
        (insert key c)

/-- Third loop of `parse_unified_accounts`: `unifiedfvk` records. -/
def parseUnifiedFvkGo (dec : Decoders) :
    List Record → List (UfvkFingerprint × UnifiedFullViewingKey) → Finset DBKey →
    Except Err (List (UfvkFingerprint × UnifiedFullViewingKey) × Finset DBKey)
  | [], m, c => .ok (m, c)
  | (key, value) :: rest, m, c => do
    let key_id ← parseBufCtx "UnifiedFullViewingKey key" dec.ufvkFingerprint key.data
    let fvk ← parseBufCtx "UnifiedFullViewingKey value" dec.unifiedFvk value
    parseUnifiedFvkGo dec rest (hmInsert key_id fvk m) (insert key c)

def parse_unified_accounts (dec : Decoders) (d : ZcashdDump) :
    Except Err (UnifiedAccounts × Finset DBKey) :=
  if ¬ d.has_keys_for_keyname "unifiedaddrmeta" then
    .ok (UnifiedAccounts.none, ∅)
  else do
    let address_metadata_records ← d.records_for_keyname "unifiedaddrmeta"
    let (address_metadata, c₁) ← parseUnifiedAddrMetaGo dec address_metadata_records [] ∅
    let account_metadata_records ← d.records_for_keyname "unifiedaccount"
    let (account_metadata, c₂) ← parseUnifiedAccountGo dec account_metadata_records [] ∅
    let full_viewing_keys_records ← d.records_for_keyname "unifiedfvk"
    let (full_viewing_keys, c₃) ← parseUnifiedFvkGo dec full_viewing_keys_records [] ∅
    .ok (⟨address_metadata, full_viewing_keys, account_metadata⟩, c₁ ∪ c₂ ∪ c₃)

def parse_hdseed (dec : Decoders) (d : ZcashdDump) :
    Except Err (Option LegacySeed × Finset DBKey) :=
  if d.has_value_for_keyname "hdseed" then do
    let r ← ctxE "Getting \x27hdseed\x27 record" (d.record_for_keyname "hdseed")
    let fingerprint ← parseBufCtx "seed fingerprint" dec.seedFingerprint r.1.data
    let seed_data ← parseBufCtx "legacy seed data" dec.dataD r.2
    .ok (some ⟨seed_data, some fingerprint⟩, {r.1})
  else
    .ok (none, ∅)

/-- The mnemonic phrase: decoded from the one `mnemonicphrase` record, with
the seed fingerprint from the record key attached via `set_fingerprint`. -/
def parse_mnemonic_phrase (dec : Decoders) (d : ZcashdDump) :
    Except Err (Bip39Mnemonic × Finset DBKey) := do
  let r ← ctxE "Getting \x27mnemonicphrase\x27 record" (d.record_for_keyname "mnemonicphrase")
  let fingerprint ← parseBufCtx "seed fingerprint" dec.seedFingerprint r.1.data
  let bip39_mnemonic ← parseBufCtx "mnemonic phrase" dec.bip39Mnemonic r.2
  .ok (⟨bip39_mnemonic, some fingerprint⟩, {r.1})

/-- Loop body of `parse_address_names`: duplicate decoded addresses are a
hard error (`bail!("Duplicate address found: ...")`). -/
def parseAddressNamesGo (dec : Decoders) :
    List Record → List (Address × String) → Finset DBKey →
    Except Err (List (Address × String) × Finset DBKey)
  | [], m, c => .ok (m, c)
  | (key, value) :: rest, m, c => do
    let address ← parseBufCtx "address" dec.address key.data
    let name ← parseBufCtx "name" dec.stringD value
    if hmContains address m then
      .error (.duplicateAddressFound address)
    else
      parseAddressNamesGo dec rest (hmInsert address name m) (insert key c)

def parse_address_names (dec : Decoders) (d : ZcashdDump) :
    Except Err (List (Address × String) × Finset DBKey) := do
  let records ← ctxE "Getting \x27name\x27 records" (d.records_for_keyname "name")
  parseAddressNamesGo dec records [] ∅

/-- Loop body of `parse_address_purposes`, same shape as the names loop. -/
def parseAddressPurposesGo (dec : Decoders) :
    List Record → List (Address × String) → Finset DBKey →
    Except Err (List (Address × String) × Finset DBKey)
  | [], m, c => .ok (m, c)
  | (key, value) :: rest, m, c => do
    let address ← parseBufCtx "address" dec.address key.data
    let purpose ← parseBufCtx "purpose" dec.stringD value
    if hmContains address m then
      .error (.duplicateAddressFound address)
    else
      parseAddressPurposesGo dec rest (hmInsert address purpose m) (insert key c)

def parse_address_purposes (dec : Decoders) (d : ZcashdDump) :
    Except Err (List (Address × String) × Finset DBKey) := do
  let records ← ctxE "Getting \x27purpose\x27 records" (d.records_for_keyname "purpose")
  parseAddressPurposesGo dec records [] ∅

/-- Loop body of `parse_sapling_z_addresses`: duplicate decoded payment
addresses are a hard error. -/
def parseSaplingZAddressesGo (dec : Decoders) :
    List Record → List (SaplingZPaymentAddress × SaplingIncomingViewingKey) → Finset DBKey →
    Except Err (List (SaplingZPaymentAddress × SaplingIncomingViewingKey) × Finset DBKey)
  | [], m, c => .ok (m, c)
  | (key, value) :: rest, m, c => do
    let payment_address ← parseBufCtx "payment address" dec.saplingZAddr key.data
    let viewing_key ← parseBufCtx "viewing key" dec.saplingIvk value
    if hmContains payment_address m then
      .error (.duplicatePaymentAddressFound payment_address)
    else
      parseSaplingZAddressesGo dec rest (hmInsert payment_address viewing_key m)
        (insert key c)

def parse_sapling_z_addresses (dec : Decoders) (d : ZcashdDump) :
    Except Err (List (SaplingZPaymentAddress × SaplingIncomingViewingKey) × Finset DBKey) :=
  if ¬ d.has_keys_for_keyname "sapzaddr" then
    .ok ([], ∅)
  else do
    let records ← ctxE "Getting \x27sapzaddr\x27 records" (d.records_for_keyname "sapzaddr")
    parseSaplingZAddressesGo dec records [] ∅

def parse_network_info (dec : Decoders) (d : ZcashdDump) :
    Except Err (NetworkInfo × Finset DBKey) := do
  let (value, c) ← ctxE "Getting \x27networkinfo\x27 record"
    (value_for_keyname d "networkinfo")
  let network_info ← parseBufCtx "network info" dec.networkInfo value
  .ok (network_info, c)

/-- Orchard note commitment tree: the source slices `&value.as_data()[4..]`
unconditionally before decoding; for a value shorter than 4 bytes the slice
is out of bounds — a panic, not an ordinary decode error — modelled by the
outer `Option` (`none` = panic). -/
def parse_orchard_note_commitment_tree (dec : Decoders) (d : ZcashdDump) :
    Option (Except Err (OrchardNoteCommitmentTree × Finset DBKey)) :=
  match ctxE "Getting \x27orchard_note_commitment_tree\x27 record"
      (value_for_keyname d "orchard_note_commitment_tree") with
  | .error e => some (.error e)
  | .ok (value, c) =>
    if 4 ≤ value.length then
      some (do
        let t ← parseBufCtx "orchard note commitment tree" dec.orchardTree (value.drop 4)
        .ok (t, c))
    else
      none

/-- Loop body of `parse_key_pool`. -/
def parseKeyPoolGo (dec : Decoders) :
    List Record → List (Int × KeyPoolEntry) → Finset DBKey →
    Except Err (List (Int × KeyPoolEntry) × Finset DBKey)
  | [], m, c => .ok (m, c)
  | (key, value) :: rest, m, c => do
    let index ← parseBufCtx "key pool index" dec.i64D key.data
    let entry ← parseBufCtx "key pool entry" dec.keyPoolEntry value
    parseKeyPoolGo dec rest (hmInsert index entry m) (insert key c)

def parse_key_pool (dec : Decoders) (d : ZcashdDump) :
    Except Err (List (Int × KeyPoolEntry) × Finset DBKey) := do
  let records ← ctxE "Getting \x27pool\x27 records" (d.records_for_keyname "pool")
  parseKeyPoolGo dec records [] ∅

/-- Loop body of `parse_transactions` over the key-sorted records: decode
the txid from the key, then the transaction from the value; a successful
decode fails fast on a duplicate txid; a failed decode aborts when strict and
is downgraded to a diagnostic (hex of the raw value plus the error) when
lenient.  The record is marked claimed after either surviving branch. -/
def parseTransactionsGo (dec : Decoders) (strict : Bool) :
    List Record → List (TxId × WalletTx) → List TxDiag → Finset DBKey →
    Except Err (List (TxId × WalletTx) × List TxDiag × Finset DBKey)
  | [], m, diags, c => .ok (m, diags, c)
  | (key, value) :: rest, m, diags, c => do
    let txid ← parseBufCtx "transaction ID" dec.txId key.data
    match parseBufCtx "transaction" dec.walletTx value with
    | .ok transaction =>
      if hmContains txid m then
        .error (.duplicateTransactionFound txid)
      else
        parseTransactionsGo dec strict rest (hmInsert txid transaction m) diags
          (insert key c)
    | .error e =>
      if !strict then
        parseTransactionsGo dec strict rest m (diags ++ [⟨hexEncode value, e⟩])
          (insert key c)
      else
        .error e

def parse_transactions (dec : Decoders) (d : ZcashdDump) (strict : Bool) :
    Except Err (List (TxId × WalletTx) × List TxDiag × Finset DBKey) :=
  if d.has_keys_for_keyname "tx" then do
    let records ← ctxE "Getting \x27tx\x27 records" (d.records_for_keyname "tx")
    let sorted_records := records.mergeSort recordLe
    parseTransactionsGo dec strict sorted_records [] [] ∅
  else
    .ok ([], [], ∅)

end ZcashdParser

/-- The terminal wallet aggregate, `ZcashdWallet::new` (fields in the
constructor's parameter order). -/
structure ZcashdWallet where
  address_names : List (Address × String)
  address_purposes : List (Address × String)
  bestblock_nomerkle : Option BlockLocator
  bestblock : BlockLocator
  client_version : ClientVersion
  default_key : PubKey
  key_pool : List (Int × KeyPoolEntry)
  keys : Keys
  min_version : ClientVersion
  legacy_hd_seed : Option LegacySeed
  mnemonic_hd_chain : MnemonicHDChain
  mnemonic_phrase : Bip39Mnemonic
  network_info : NetworkInfo
  orchard_note_commitment_tree : OrchardNoteCommitmentTree
  orderposnext : Option Int
  sapling_keys : SaplingKeys
  sapling_z_addresses : List (SaplingZPaymentAddress × SaplingIncomingViewingKey)
  send_recipients : List (TxId × List RecipientMapping)
  sprout_keys : Option SproutKeys
  wallet_keys : Option WalletKeys
  transactions : List (TxId × WalletTx)
  unified_accounts : UnifiedAccounts
  witnesscachesize : Int
deriving DecidableEq

/-- Outcome of a computation that can also panic (the out-of-bounds slice of
the orchard step): `none` is a panic, `some` an ordinary result. -/
def POE (α : Type) := Option (Except Err α)

namespace ZcashdParser

/-- The single linear reconstruction pass, `ZcashdParser::parse` /
`parse_dump`: category by category in the source order, assembling the
wallet and the unclaimed record set.  Claim marks are modelled by the claimed
set each category step returns (the `.2` of each step); the unclaimed set is
all record identities minus everything claimed, exactly the final state of
`unparsed_keys`.  The orchard step can panic (out-of-bounds slice): the pass
is cut at that step, `none` meaning the panic propagated. -/
def parse (dec : Decoders) (d : ZcashdDump) (strict : Bool) :
    POE (ZcashdWallet × Finset DBKey) :=
  match (do
    let bestblock ← parse_block_locator dec d "bestblock"
    let default_key ← parse_default_key dec d
    let legacy_hd_seed ← parse_hdseed dec d
    let keys ← parse_keys dec d
    let min_version ← parse_client_version dec d "minversion"
    let address_names ← parse_address_names dec d
    let orderposnext ← parse_opt_i64 dec d "orderposnext"
    let key_pool ← parse_key_pool dec d
    let address_purposes ← parse_address_purposes dec d
    let sapling_z_addresses ← parse_sapling_z_addresses dec d
    let sapling_keys ← parse_sapling_keys dec d
    let transactions ← parse_transactions dec d strict
    let client_version ← parse_client_version dec d "version"
    let witnesscachesize ← parse_i64 dec d "witnesscachesize"
    let wallet_keys ← parse_wallet_keys dec d
    let sprout_keys ← parse_sprout_keys dec d
    let network_info ← parse_network_info dec d
    Except.ok (bestblock, default_key, legacy_hd_seed, keys, min_version, address_names,
      orderposnext, key_pool, address_purposes, sapling_z_addresses, sapling_keys,
      transactions, client_version, witnesscachesize, wallet_keys, sprout_keys,
      network_info)) with
  | .error e => some (.error e)
  | .ok (bestblock, default_key, legacy_hd_seed, keys, min_version, address_names,
      orderposnext, key_pool, address_purposes, sapling_z_addresses, sapling_keys,
      transactions, client_version, witnesscachesize, wallet_keys, sprout_keys,
      network_info) =>
    match parse_orchard_note_commitment_tree dec d with
    | none => none
    | some orchRes =>
      some (do
        let orchard ← orchRes
        let unified_accounts ← parse_unified_accounts dec d
        let mnemonic_phrase ← parse_mnemonic_phrase dec d
        let mnemonic_hd_chain ← parse_mnemonic_hd_chain dec d
        let send_recipients ← parse_send_recipients dec d
        let bestblock_nomerkle ← parse_opt_block_locator dec d "bestblock_nomerkle"
        Except.ok
          (⟨address_names.1, address_purposes.1, bestblock_nomerkle.1, bestblock.1,
            client_version.1, default_key.1, key_pool.1, keys.1, min_version.1,
            legacy_hd_seed.1, mnemonic_hd_chain.1, mnemonic_phrase.1, network_info.1,
            orchard.1, orderposnext.1, sapling_keys.1, sapling_z_addresses.1,
            send_recipients.1, sprout_keys.1, wallet_keys.1, transactions.1,
            unified_accounts.1, witnesscachesize.1⟩,
          d.allKeys \ (bestblock.2 ∪ default_key.2 ∪ legacy_hd_seed.2 ∪ keys.2 ∪
            min_version.2 ∪ address_names.2 ∪ orderposnext.2 ∪ key_pool.2 ∪
            address_purposes.2 ∪ sapling_z_addresses.2 ∪ sapling_keys.2 ∪
            transactions.2.2 ∪ client_version.2 ∪ witnesscachesize.2 ∪ wallet_keys.2 ∪
            sprout_keys.2 ∪ network_info.2 ∪ orchard.2 ∪ unified_accounts.2 ∪
            mnemonic_phrase.2 ∪ mnemonic_hd_chain.2 ∪ send_recipients.2 ∪
            bestblock_nomerkle.2)))

/-- The public entry point `ZcashdParser::parse_dump`. -/
def parse_dump (dec : Decoders) (d : ZcashdDump) (strict : Bool) :
    POE (ZcashdWallet × Finset DBKey) :=
  parse dec d strict

end ZcashdParser

/-- The keynames of the categories whose decoder runs in a pass over the
dump: the unconditional categories, plus each guarded category whose
presence guard holds.  The paired metadata categories ride on their
primary's guard (the source consults `keymeta` only via the `key` loop,
and likewise for `sapzkeymeta`/`zkeymeta`), and `unifiedaccount` and
`unifiedfvk` ride on the `unifiedaddrmeta` guard. -/
def processedKeynames (d : ZcashdDump) : List String :=
  ["bestblock", "defaultkey", "key", "keymeta", "minversion", "name", "pool",
    "purpose", "version", "witnesscachesize", "networkinfo",
    "orchard_note_commitment_tree", "mnemonicphrase", "mnemonichdchain"] ++
  (if d.has_value_for_keyname "hdseed" then ["hdseed"] else []) ++
  (if d.has_value_for_keyname "orderposnext" then ["orderposnext"] else []) ++
  (if d.has_value_for_keyname "bestblock_nomerkle" then ["bestblock_nomerkle"] else []) ++
  (if d.has_keys_for_keyname "sapzaddr" then ["sapzaddr"] else []) ++
  (if d.has_keys_for_keyname "tx" then ["tx"] else []) ++
  (if d.has_keys_for_keyname "wkey" then ["wkey"] else []) ++
  (if d.has_keys_for_keyname "recipientmapping" then ["recipientmapping"] else []) ++
  (if d.has_keys_for_keyname "sapzkey" then ["sapzkey", "sapzkeymeta"] else []) ++
  (if d.has_keys_for_keyname "zkey" then ["zkey", "zkeymeta"] else []) ++
  (if d.has_keys_for_keyname "unifiedaddrmeta" then
    ["unifiedaddrmeta", "unifiedaccount", "unifiedfvk"] else [])

/- Reduction lemmas for the embedded monads. -/

@[simp]
theorem excBind_ok {α β : Type} (a : α) (f : α → Except Err β) :
    (Except.ok a >>= f) = f a := rfl

@[simp]
theorem excBind_error {α β : Type} (e : Err) (f : α → Except Err β) :
    ((Except.error e : Except Err α) >>= f) = .error e := rfl

@[simp]
theorem excMapError_ok {α : Type} (a : α) (f : Err → Err) :
    (Except.ok a : Except Err α).mapError f = .ok a := rfl

@[simp]
theorem excMapError_error {α : Type} (e : Err) (f : Err → Err) :
    (Except.error e : Except Err α).mapError f = .error (f e) := rfl

@[simp]
theorem ctxE_ok {α : Type} (msg : String) (a : α) : ctxE msg (.ok a) = .ok a := rfl

@[simp]
theorem ctxE_error {α : Type} (msg : String) (e : Err) :
    ctxE msg (.error e : Except Err α) = .error (.context msg e) := rfl

/- Simple concrete decoders used as witnesses: each consumes what it needs
and wraps the consumed bytes. -/

/-- Consume and return all remaining bytes. -/
def readAll : ParserM Bytes := fun p =>
  .ok (p.data.drop p.offset, ⟨p.data, p.data.length⟩)

/-- Consume all remaining bytes, wrapping them with `g`. -/
def readAllAs {α : Type} (g : Bytes → α) : ParserM α := fun p =>
  (readAll p).map (fun x => (g x.1, x.2))

/-- Consume exactly one byte, wrapping it with `g`. -/
def read1As {α : Type} (g : Bytes → α) : ParserM α := fun p =>
  (p.next 1).map (fun x => (g x.1, x.2))

def trivDec : Decoders where
  pubKey := readAllAs PubKey.mk
  address := readAllAs Address.mk
  stringD := readAllAs (fun _ => "")
  i64D := readAllAs (fun _ => 0)
  u32D := readAllAs (fun _ => 0)
  txId := read1As TxId.mk
  keyMetadata := readAllAs KeyMetadata.mk
  walletTx := readAllAs WalletTx.mk
  clientVersion := readAllAs ClientVersion.mk
  blockLocator := readAllAs BlockLocator.mk
  networkInfo := readAllAs NetworkInfo.mk
  orchardTree := readAllAs OrchardNoteCommitmentTree.mk
  mnemonicHDChain := readAllAs MnemonicHDChain.mk
  bip39Mnemonic := readAll
  seedFingerprint := readAllAs SeedFingerprint.mk
  dataD := readAllAs Data.mk
  keyPoolEntry := readAllAs KeyPoolEntry.mk
  saplingIvk := readAllAs SaplingIncomingViewingKey.mk
  saplingZAddr := readAllAs SaplingZPaymentAddress.mk
  extSpendingKey := readAllAs ExtendedSpendingKey.mk
  sproutAddr := readAllAs SproutPaymentAddress.mk
  u252D := readAllAs u252.mk
  secondsSinceEpoch := readAllAs SecondsSinceEpoch.mk
  recipientAddress := readAllAs RecipientAddress.mk
  unifiedAddrMeta := readAllAs UnifiedAddressMetadata.mk
  unifiedAccountMeta := readAllAs (fun bs => ⟨⟨bs⟩, []⟩)
  ufvkFingerprint := readAllAs UfvkFingerprint.mk
  unifiedFvk := readAllAs UnifiedFullViewingKey.mk
  mkKeyPair := fun pk sk md => .ok ⟨pk, sk, md⟩
  mkSaplingKey := fun i k m => .ok ⟨i, k, m⟩

/- Byte-exact facts about the cursor and the varint codec. -/

theorem Parser.next_append (pre mid post : Bytes) :
    Parser.next ⟨pre ++ (mid ++ post), pre.length⟩ mid.length =
      .ok (mid, ⟨pre ++ (mid ++ post), pre.length + mid.length⟩) := by
  have hle : mid.length ≤ Parser.remaining ⟨pre ++ (mid ++ post), pre.length⟩ := by
    simp [Parser.remaining, List.length_append]
  unfold Parser.next
  rw [if_pos hle, List.drop_left, List.take_left]

theorem leBytes_length (w n : Nat) : (leBytes w n).length = w := by
  induction w generalizing n with
  | zero => rfl
  | succ w ih => simp [leBytes, ih]

theorem decodeLE_leBytes (w n : Nat) : decodeLE (leBytes w n) = n % 256 ^ w := by
  induction w generalizing n with
  | zero => simp [leBytes, decodeLE, Nat.mod_one]
  | succ w ih =>
    have hp : (256 : Nat) ^ (w + 1) = 256 * 256 ^ w := by ring
    simp only [leBytes, decodeLE, ih, hp, Nat.mod_mul]

theorem CompactSize.parse_encode (n : Nat) (hn : n < 2 ^ 64) (rest : Bytes) :
    CompactSize.parse (Parser.new (encodeCompactSize n ++ rest)) =
      .ok (n, ⟨encodeCompactSize n ++ rest, (encodeCompactSize n).length⟩) := by
  by_cases h1 : n < 0xFD
  · simp only [encodeCompactSize, if_pos h1]
    unfold CompactSize.parse
    have hnext : Parser.next (Parser.new ([n] ++ rest)) 1 = .ok ([n], ⟨[n] ++ rest, 1⟩) := by
      simp [Parser.new, Parser.next, Parser.remaining]
    rw [hnext]
    simp [h1]
  · by_cases h2 : n < 0x10000
    · simp only [encodeCompactSize, if_neg h1, if_pos h2]
      unfold CompactSize.parse
      have hnext : Parser.next (Parser.new ((0xFD :: leBytes 2 n) ++ rest)) 1 =
          .ok ([0xFD], ⟨(0xFD :: leBytes 2 n) ++ rest, 1⟩) := by
        simp [Parser.new, Parser.next, Parser.remaining]
      rw [hnext]
      have hnext2 : Parser.next (⟨0xFD :: (leBytes 2 n ++ rest), 1⟩ : Parser) 2 =
          .ok (leBytes 2 n, ⟨0xFD :: (leBytes 2 n ++ rest), 3⟩) := by
        have h := Parser.next_append [0xFD] (leBytes 2 n) rest
        simpa [leBytes_length] using h
      have hv : decodeLE (leBytes 2 n) = n := by
        rw [decodeLE_leBytes]
        exact Nat.mod_eq_of_lt (by omega)
      simp [hv, h1, leBytes_length]
      rw [hnext2]
      simp [hv, h1]
    · by_cases h3 : n < 0x100000000
      · simp only [encodeCompactSize, if_neg h1, if_neg h2, if_pos h3]
        unfold CompactSize.parse
        have hnext : Parser.next (Parser.new ((0xFE :: leBytes 4 n) ++ rest)) 1 =
            .ok ([0xFE], ⟨(0xFE :: leBytes 4 n) ++ rest, 1⟩) := by
          simp [Parser.new, Parser.next, Parser.remaining]
        rw [hnext]
        have hnext2 : Parser.next (⟨0xFE :: (leBytes 4 n ++ rest), 1⟩ : Parser) 4 =
            .ok (leBytes 4 n, ⟨0xFE :: (leBytes 4 n ++ rest), 5⟩) := by
          have h := Parser.next_append [0xFE] (leBytes 4 n) rest
          simpa [leBytes_length] using h
        have hv : decodeLE (leBytes 4 n) = n := by
          rw [decodeLE_leBytes]
          exact Nat.mod_eq_of_lt (by omega)
        simp [hv, h2, leBytes_length]
        rw [hnext2]
        simp [hv, h2]
      · simp only [encodeCompactSize, if_neg h1, if_neg h2, if_neg h3]
        unfold CompactSize.parse
        have hnext : Parser.next (Parser.new ((0xFF :: leBytes 8 n) ++ rest)) 1 =
            .ok ([0xFF], ⟨(0xFF :: leBytes 8 n) ++ rest, 1⟩) := by
          simp [Parser.new, Parser.next, Parser.remaining]
        rw [hnext]
        have hnext2 : Parser.next (⟨0xFF :: (leBytes 8 n ++ rest), 1⟩ : Parser) 8 =
            .ok (leBytes 8 n, ⟨0xFF :: (leBytes 8 n ++ rest), 9⟩) := by
          have h := Parser.next_append [0xFF] (leBytes 8 n) rest
          simpa [leBytes_length] using h
        have hv : decodeLE (leBytes 8 n) = n := by
          rw [decodeLE_leBytes]
          exact Nat.mod_eq_of_lt (by omega)
        simp [hv, h3, leBytes_length]
        rw [hnext2]
        simp [hv, h3]

@[simp]
theorem excMap_ok {α β : Type} (a : α) (f : α → β) :
    (Except.ok a : Except Err α).map f = .ok (f a) := rfl

@[simp]
theorem excMap_error {α β : Type} (e : Err) (f : α → β) :
    (Except.error e : Except Err α).map f = .error e := rfl

/-- Successful secret-key decode: the layout is `[varint length][length bytes
of secret material][32-byte hash]` and both the material and the hash are
preserved in the decoded value. -/
theorem privkey_parse_ok (len : Nat) (secret hsh : Bytes) (hlen : len < 2 ^ 64)
    (hacc : len = 214 ∨ len = 279) (hsec : secret.length = len) (hhash : hsh.length = 32) :
    parseBuf PrivKey.parse (encodeCompactSize len ++ (secret ++ hsh)) =
      .ok ⟨⟨secret⟩, ⟨hsh⟩⟩ := by
  have hcs := CompactSize.parse_encode len hlen (secret ++ hsh)
  have hnotboth : ¬ (len ≠ 214 ∧ len ≠ 279) := by
    rcases hacc with h | h <;> simp [h]
  have hsecnext : Parser.next
      (⟨encodeCompactSize len ++ (secret ++ hsh), (encodeCompactSize len).length⟩ : Parser)
      len =
      .ok (secret, ⟨encodeCompactSize len ++ (secret ++ hsh),
        (encodeCompactSize len).length + len⟩) := by
    have h := Parser.next_append (encodeCompactSize len) secret hsh
    rw [hsec] at h
    exact h
  have hhashnext : Parser.next
      (⟨encodeCompactSize len ++ (secret ++ hsh),
        (encodeCompactSize len).length + len⟩ : Parser) 32 =
      .ok (hsh, ⟨encodeCompactSize len ++ (secret ++ hsh),
        (encodeCompactSize len).length + len + 32⟩) := by
    have h := Parser.next_append (encodeCompactSize len ++ secret) hsh []
    simpa [List.append_assoc, List.length_append, hsec, hhash, Nat.add_assoc] using h
  have hfin : (⟨encodeCompactSize len ++ (secret ++ hsh),
      (encodeCompactSize len).length + len + 32⟩ : Parser).check_finished = .ok () := by
    unfold Parser.check_finished
    rw [if_pos (by simp only [List.length_append, hsec, hhash]; omega)]
  unfold parseBuf PrivKey.parse
  simp only [parseCtx, u256.parse, hcs, excMapError_ok, excBind_ok, if_neg hnotboth,
    hsecnext, excMap_ok, hhashnext, hfin]

/-- Failing secret-key decode: any length other than 214 or 279 is rejected
with `InvalidLength` naming both accepted lengths, whatever bytes follow. -/
theorem privkey_parse_invalid (len : Nat) (hlen : len < 2 ^ 64)
    (h214 : len ≠ 214) (h279 : len ≠ 279) (extra : Bytes) :
    PrivKey.parse (Parser.new (encodeCompactSize len ++ extra)) =
      .error (.invalidLength "privkey" [214, 279] len) := by
  have hcs := CompactSize.parse_encode len hlen extra
  unfold PrivKey.parse
  simp only [parseCtx, hcs, excMapError_ok, excBind_ok, if_pos (And.intro h214 h279)]

/-- C4: decoding a secret-key (`PrivKey`) payload reads a varint length, then
exactly that many bytes of secret material, then a 32-byte hash, preserving
both in the decoded value; for every length other than exactly 214 or 279 the
decode fails with `InvalidLength` naming the accepted set `{214, 279}`. -/
theorem C4_privkey_length (len : Nat) (secret hsh extra : Bytes) (hlen : len < 2 ^ 64)
    (hsec : secret.length = len) (hhash : hsh.length = 32) :
    ((len = 214 ∨ len = 279) →
      parseBuf PrivKey.parse (encodeCompactSize len ++ (secret ++ hsh)) =
        .ok ⟨⟨secret⟩, ⟨hsh⟩⟩) ∧
    (len ≠ 214 → len ≠ 279 →
      PrivKey.parse (Parser.new (encodeCompactSize len ++ extra)) =
        .error (.invalidLength "privkey" [214, 279] len)) :=
  ⟨fun hacc => privkey_parse_ok len secret hsh hlen hacc hsec hhash,
   fun h1 h2 => privkey_parse_invalid len hlen h1 h2 extra⟩

theorem C4_privkey_length_witness :
    parseBuf PrivKey.parse
        (encodeCompactSize 214 ++ (List.replicate 214 7 ++ List.replicate 32 9)) =
      .ok ⟨⟨List.replicate 214 7⟩, ⟨List.replicate 32 9⟩⟩ ∧
    PrivKey.parse (Parser.new (encodeCompactSize 100 ++ List.replicate 146 0)) =
      .error (.invalidLength "privkey" [214, 279] 100) :=
  ⟨(C4_privkey_length 214 (List.replicate 214 7) (List.replicate 32 9) []
      (by decide) (List.length_replicate 214 7) (List.length_replicate 32 9)).1
      (Or.inl rfl),
   (C4_privkey_length 100 (List.replicate 100 0) (List.replicate 32 0)
      (List.replicate 146 0) (by decide) (List.length_replicate 100 0)
      (List.length_replicate 32 0)).2 (by decide) (by decide)⟩

/-- C8: every decode through the context-wrapping `parse!` path that fails
yields an error whose message is `"Parsing <description>"` for the supplied
description, retaining the original error as the underlying `source` cause —
the innermost error is never discarded and the underlying kind (root cause)
is unaltered by the wrap. -/
theorem C8_context_wrap {α : Type} (desc : String) (f : ParserM α) (buf : Bytes)
    (p : Parser) (e e' : Err)
    (hbuf : parseBuf f buf = .error e) (hcur : f p = .error e') :
    parseBufCtx desc f buf = .error (.context ("Parsing " ++ desc) e) ∧
    parseCtx desc f p = .error (.context ("Parsing " ++ desc) e') ∧
    Err.messageOf (.context ("Parsing " ++ desc) e) = some ("Parsing " ++ desc) ∧
    Err.sourceOf (.context ("Parsing " ++ desc) e) = some e ∧
    Err.rootCause (.context ("Parsing " ++ desc) e) = Err.rootCause e := by
  refine ⟨?_, ?_, rfl, rfl, rfl⟩
  · simp [parseBufCtx, hbuf, Err.with_context]
  · simp [parseCtx, hcur, Err.with_context]

theorem C8_context_wrap_witness :
    parseBuf (fun _ => (.error (.message "boom") : Except Err (Unit × Parser))) [] =
      .error (.message "boom") ∧
    parseBufCtx "field" (fun _ => (.error (.message "boom") : Except Err (Unit × Parser)))
      [] = .error (.context ("Parsing " ++ "field") (.message "boom")) ∧
    Err.sourceOf (.context ("Parsing " ++ "field") (.message "boom")) =
      some (.message "boom") :=
  by
  have h := C8_context_wrap "field"
    (fun _ => (.error (.message "boom") : Except Err (Unit × Parser))) [] (Parser.new [])
    (.message "boom") (.message "boom") rfl rfl
  exact ⟨rfl, h.1, h.2.2.2.1⟩

/-- C9: `parse_orchard_note_commitment_tree` unconditionally skips the first
4 bytes of the record value by slicing before decoding; for every value
shorter than 4 bytes the slice is out of bounds (a panic, not an ordinary
decode error), so totality requires the value to be at least 4 bytes long. -/
theorem C9_orchard_slice (dec : Decoders) (d : ZcashdDump) (v : DBValue) (c : Finset DBKey)
    (h : ZcashdParser.value_for_keyname d "orchard_note_commitment_tree" = .ok (v, c)) :
    (v.length < 4 → ZcashdParser.parse_orchard_note_commitment_tree dec d = none) ∧
    (4 ≤ v.length → ZcashdParser.parse_orchard_note_commitment_tree dec d =
      some (do
        let t ← parseBufCtx "orchard note commitment tree" dec.orchardTree (v.drop 4)
        Except.ok (t, c))) := by
  constructor <;> intro hl
  · simp [ZcashdParser.parse_orchard_note_commitment_tree, h, ctxE_ok]
    omega
  · simp [ZcashdParser.parse_orchard_note_commitment_tree, h, ctxE_ok, hl]

theorem C9_orchard_slice_witness :
    ZcashdParser.value_for_keyname
        (⟨[(⟨"orchard_note_commitment_tree", [0]⟩, [1, 2])]⟩ : ZcashdDump)
        "orchard_note_commitment_tree" =
      .ok ([1, 2], {⟨"orchard_note_commitment_tree", [0]⟩}) ∧
    ZcashdParser.parse_orchard_note_commitment_tree trivDec
      ⟨[(⟨"orchard_note_commitment_tree", [0]⟩, [1, 2])]⟩ = none :=
  ⟨by decide,
   (C9_orchard_slice trivDec ⟨[(⟨"orchard_note_commitment_tree", [0]⟩, [1, 2])]⟩
      [1, 2] {⟨"orchard_note_commitment_tree", [0]⟩} (by decide)).1 (by decide)⟩

/- Record-store facts used across the reconstruction proofs. -/

/-- Success of an `Except` step as a boolean. -/
def excIsOk {α : Type} : Except Err α → Bool
  | .ok _ => true
  | .error _ => false

/-- Success of a panic-aware pass outcome as a boolean. -/
def poeIsOk {α : Type} : POE α → Bool
  | some (.ok _) => true
  | _ => false

theorem records_for_keyname_of_has (d : ZcashdDump) (kn : String)
    (h : d.has_keys_for_keyname kn = true) :
    d.records_for_keyname kn = .ok (d.records.filter (fun r => r.1.keyname = kn)) := by
  unfold ZcashdDump.records_for_keyname
  rw [if_neg]
  simp only [List.isEmpty_iff, List.filter_eq_nil_iff, not_forall]
  unfold ZcashdDump.has_keys_for_keyname at h
  rw [List.any_eq_true] at h
  obtain ⟨r, hr, hp⟩ := h
  exact ⟨r, hr, by simpa using hp⟩

theorem records_for_keyname_of_not_has (d : ZcashdDump) (kn : String)
    (h : d.has_keys_for_keyname kn = false) :
    d.records_for_keyname kn = .error (.recordsNotFound kn) := by
  unfold ZcashdDump.records_for_keyname
  rw [if_pos]
  simp only [List.isEmpty_iff, List.filter_eq_nil_iff]
  intro r hr
  unfold ZcashdDump.has_keys_for_keyname at h
  rw [List.any_eq_false] at h
  simpa using h r hr

theorem has_of_filter_eq_cons (d : ZcashdDump) (kn : String) (r : Record) (rs : List Record)
    (h : d.records.filter (fun x => x.1.keyname = kn) = r :: rs) :
    d.has_keys_for_keyname kn = true := by
  unfold ZcashdDump.has_keys_for_keyname
  rw [List.any_eq_true]
  have hm : r ∈ d.records.filter (fun x => x.1.keyname = kn) := by
    rw [h]; exact List.mem_cons_self r rs
  rw [List.mem_filter] at hm
  exact ⟨r, hm.1, hm.2⟩

/-- C6 (amended): the unified-account aggregate is empty exactly when
`unifiedaddrmeta` is absent; but the three categories are not independently
optional — when `unifiedaddrmeta` is present, an absent `unifiedaccount` or
`unifiedfvk` category fails the aggregate's reconstruction. -/
theorem C6_unified_optionality (dec : Decoders) (d : ZcashdDump) :
    (d.has_keys_for_keyname "unifiedaddrmeta" = false →
      ZcashdParser.parse_unified_accounts dec d = .ok (UnifiedAccounts.none, ∅)) ∧
    (d.has_keys_for_keyname "unifiedaddrmeta" = true →
      d.has_keys_for_keyname "unifiedaccount" = false →
      excIsOk (ZcashdParser.parse_unified_accounts dec d) = false) ∧
    (d.has_keys_for_keyname "unifiedaddrmeta" = true →
      d.has_keys_for_keyname "unifiedfvk" = false →
      excIsOk (ZcashdParser.parse_unified_accounts dec d) = false) := by
  refine ⟨?_, ?_, ?_⟩
  · intro h
    unfold ZcashdParser.parse_unified_accounts
    rw [if_pos (by simp [h])]
  · intro haddr hacct
    unfold ZcashdParser.parse_unified_accounts
    rw [if_neg (by simp [haddr])]
    rw [records_for_keyname_of_has d _ haddr]
    simp only [excBind_ok]
    cases hgo : ZcashdParser.parseUnifiedAddrMetaGo dec
        (d.records.filter (fun r => r.1.keyname = "unifiedaddrmeta")) [] ∅ with
    | error e => simp [hgo, excIsOk]
    | ok v =>
      simp only [hgo, excBind_ok]
      rw [records_for_keyname_of_not_has d _ hacct]
      simp [excIsOk]
  · intro haddr hfvk
    unfold ZcashdParser.parse_unified_accounts
    rw [if_neg (by simp [haddr])]
    rw [records_for_keyname_of_has d _ haddr]
    simp only [excBind_ok]
    cases hgo : ZcashdParser.parseUnifiedAddrMetaGo dec
        (d.records.filter (fun r => r.1.keyname = "unifiedaddrmeta")) [] ∅ with
    | error e => simp [hgo, excIsOk]
    | ok v =>
      simp only [hgo, excBind_ok]
      cases hacct : d.records_for_keyname "unifiedaccount" with
      | error e => simp [hacct, excIsOk]
      | ok accts =>
        simp only [hacct, excBind_ok]
        cases hgo₂ : ZcashdParser.parseUnifiedAccountGo dec accts [] ∅ with
        | error e => simp [hgo₂, excIsOk]
        | ok v₂ =>
          simp only [hgo₂, excBind_ok]
          rw [records_for_keyname_of_not_has d _ hfvk]
          simp [excIsOk]

/-- C6 counterexample: with `unifiedaddrmeta` present and `unifiedaccount`
absent, reconstruction of the aggregate fails (the claim asserts it succeeds
for every combination of the three categories being present or absent). -/
theorem C6_unified_counterexample :
    ZcashdDump.has_keys_for_keyname (⟨[(⟨"unifiedaddrmeta", [1]⟩, [0])]⟩ : ZcashdDump)
      "unifiedaddrmeta" = true ∧
    ZcashdDump.has_keys_for_keyname (⟨[(⟨"unifiedaddrmeta", [1]⟩, [0])]⟩ : ZcashdDump)
      "unifiedaccount" = false ∧
    ZcashdParser.parse_unified_accounts trivDec ⟨[(⟨"unifiedaddrmeta", [1]⟩, [0])]⟩ =
      .error (.recordsNotFound "unifiedaccount") :=
  ⟨by decide, by decide, by decide⟩

theorem C6_unified_optionality_witness :
    ZcashdParser.parse_unified_accounts trivDec (⟨[]⟩ : ZcashdDump) =
      .ok (UnifiedAccounts.none, ∅) ∧
    excIsOk (ZcashdParser.parse_unified_accounts trivDec
      ⟨[(⟨"unifiedaddrmeta", [1]⟩, [0]), (⟨"unifiedfvk", [2]⟩, [0])]⟩) = false :=
  ⟨(C6_unified_optionality trivDec ⟨[]⟩).1 (by decide),
   (C6_unified_optionality trivDec
      ⟨[(⟨"unifiedaddrmeta", [1]⟩, [0]), (⟨"unifiedfvk", [2]⟩, [0])]⟩).2.1
      (by decide) (by decide)⟩

/- Shared concrete dumps for witnesses and counterexamples.  `baseRecords`
holds one record of every category the pass requires unconditionally. -/

/-- A well-formed `key` record value: 214 bytes of material plus hash. -/
def privVal : Bytes :=
  encodeCompactSize 214 ++ (List.replicate 214 7 ++ List.replicate 32 9)

def baseRecords : List Record :=
  [(⟨"bestblock", [0]⟩, [1]),
   (⟨"defaultkey", [0]⟩, [2]),
   (⟨"key", [10]⟩, privVal),
   (⟨"keymeta", [10]⟩, [3]),
   (⟨"minversion", [0]⟩, [4]),
   (⟨"name", [11]⟩, [5]),
   (⟨"pool", [12]⟩, [6]),
   (⟨"purpose", [11]⟩, [7]),
   (⟨"version", [0]⟩, [8]),
   (⟨"witnesscachesize", [0]⟩, [9]),
   (⟨"networkinfo", [0]⟩, [10]),
   (⟨"orchard_note_commitment_tree", [0]⟩, [0, 0, 0, 0]),
   (⟨"mnemonicphrase", [20]⟩, [11]),
   (⟨"mnemonichdchain", [0]⟩, [12])]

/-- Full dump with two recipient mappings sharing a txid, one order. -/
def cexDumpA : ZcashdDump :=
  ⟨baseRecords ++ [(⟨"recipientmapping", [7, 1]⟩, [13]),
                   (⟨"recipientmapping", [7, 2]⟩, [14])]⟩

/-- C5 (amended): duplicate decoded txid keys in the `recipientmapping`
category are not an error — both mappings are kept, accumulated in record
order into that txid's vector. -/
theorem C5_recipients_accumulate (dec : Decoders) (d : ZcashdDump)
    (k₁ k₂ : DBKey) (v₁ v₂ : DBValue) (txid : TxId) (p₁ p₂ : Parser)
    (a₁ a₂ : RecipientAddress) (q₁ q₂ : Parser) (ua₁ ua₂ : String)
    (hrec : d.records.filter (fun r => r.1.keyname = "recipientmapping") =
      [(k₁, v₁), (k₂, v₂)])
    (ht₁ : parseCtx "txid" dec.txId (Parser.new k₁.data) = .ok (txid, p₁))
    (ht₂ : parseCtx "txid" dec.txId (Parser.new k₂.data) = .ok (txid, p₂))
    (ha₁ : parseCtx "recipient_address" dec.recipientAddress p₁ = .ok (a₁, q₁))
    (ha₂ : parseCtx "recipient_address" dec.recipientAddress p₂ = .ok (a₂, q₂))
    (hf₁ : q₁.check_finished = .ok ())
    (hf₂ : q₂.check_finished = .ok ())
    (hu₁ : parseBufCtx "unified_address" dec.stringD v₁ = .ok ua₁)
    (hu₂ : parseBufCtx "unified_address" dec.stringD v₂ = .ok ua₂) :
    ZcashdParser.parse_send_recipients dec d =
      .ok ([(txid, [⟨a₁, ua₁⟩, ⟨a₂, ua₂⟩])], insert k₁ {k₂}) := by
  have hhas := has_of_filter_eq_cons d "recipientmapping" (k₁, v₁) [(k₂, v₂)] hrec
  unfold ZcashdParser.parse_send_recipients
  rw [if_neg (by simp [hhas])]
  rw [records_for_keyname_of_has d _ hhas, hrec]
  simp only [ctxE_ok, excBind_ok, ZcashdParser.parseSendRecipientsGo,
    ht₁, ht₂, ha₁, ha₂, hf₁, hf₂, hu₁, hu₂]
  simp [hmPush, hmLookup, hmInsert, Finset.pair_comm k₂ k₁]

/-- C5 counterexample: two `recipientmapping` records decoding to the same
txid key do not fail the category (the claim says reconstruction fails);
both mappings are kept, and the full pass over such a dump succeeds. -/
theorem C5_recipients_counterexample :
    parseCtx "txid" trivDec.txId (Parser.new [7, 1]) = .ok (⟨[7]⟩, ⟨[7, 1], 1⟩) ∧
    parseCtx "txid" trivDec.txId (Parser.new [7, 2]) = .ok (⟨[7]⟩, ⟨[7, 2], 1⟩) ∧
    ZcashdParser.parse_send_recipients trivDec
      ⟨[(⟨"recipientmapping", [7, 1]⟩, [13]), (⟨"recipientmapping", [7, 2]⟩, [14])]⟩ =
      .ok ([(⟨[7]⟩, [⟨⟨[1]⟩, ""⟩, ⟨⟨[2]⟩, ""⟩])],
        insert (⟨"recipientmapping", [7, 1]⟩ : DBKey) {⟨"recipientmapping", [7, 2]⟩}) ∧
    poeIsOk (ZcashdParser.parse trivDec cexDumpA false) = true :=
  ⟨by decide, by decide, by decide, by decide⟩

theorem C5_recipients_accumulate_witness :
    ZcashdParser.parse_send_recipients trivDec
      ⟨[(⟨"recipientmapping", [7, 3]⟩, [23]), (⟨"recipientmapping", [7, 4]⟩, [24])]⟩ =
      .ok ([(⟨[7]⟩, [⟨⟨[3]⟩, ""⟩, ⟨⟨[4]⟩, ""⟩])],
        insert (⟨"recipientmapping", [7, 3]⟩ : DBKey) {⟨"recipientmapping", [7, 4]⟩}) :=
  C5_recipients_accumulate trivDec
    ⟨[(⟨"recipientmapping", [7, 3]⟩, [23]), (⟨"recipientmapping", [7, 4]⟩, [24])]⟩
    ⟨"recipientmapping", [7, 3]⟩ ⟨"recipientmapping", [7, 4]⟩ [23] [24]
    ⟨[7]⟩ ⟨[7, 3], 1⟩ ⟨[7, 4], 1⟩ ⟨[3]⟩ ⟨[4]⟩ ⟨[7, 3], 2⟩ ⟨[7, 4], 2⟩ "" ""
    (by decide) (by decide) (by decide) (by decide) (by decide)
    (by decide) (by decide) (by decide) (by decide)

/-- Destructure a successful `Except` bind into its successful head step and
the successful continuation. -/
theorem excBind_eq_ok {α β : Type} {x : Except Err α} {f : α → Except Err β} {b : β}
    (h : (x >>= f) = .ok b) : ∃ a, x = .ok a ∧ f a = .ok b := by
  cases x with
  | ok a => exact ⟨a, rfl, h⟩
  | error e => exact absurd h (by simp)

set_option maxHeartbeats 2000000 in
/-- Destructuring a successful full pass: every category step succeeded, and
no key claimed by any step is in the returned unclaimed set. -/
theorem parse_ok_parts (dec : Decoders) (d : ZcashdDump) (s : Bool)
    (w : ZcashdWallet) (u : Finset DBKey)
    (h : ZcashdParser.parse dec d s = some (.ok (w, u))) :
    (∃ x, ZcashdParser.parse_block_locator dec d "bestblock" = .ok x ∧ ∀ k ∈ x.2, k ∉ u) ∧
    (∃ x, ZcashdParser.parse_default_key dec d = .ok x ∧ ∀ k ∈ x.2, k ∉ u) ∧
    (∃ x, ZcashdParser.parse_hdseed dec d = .ok x ∧ ∀ k ∈ x.2, k ∉ u) ∧
    (∃ x, ZcashdParser.parse_keys dec d = .ok x ∧ ∀ k ∈ x.2, k ∉ u) ∧
    (∃ x, ZcashdParser.parse_client_version dec d "minversion" = .ok x ∧ ∀ k ∈ x.2, k ∉ u) ∧
    (∃ x, ZcashdParser.parse_address_names dec d = .ok x ∧ ∀ k ∈ x.2, k ∉ u) ∧
    (∃ x, ZcashdParser.parse_opt_i64 dec d "orderposnext" = .ok x ∧ ∀ k ∈ x.2, k ∉ u) ∧
    (∃ x, ZcashdParser.parse_key_pool dec d = .ok x ∧ ∀ k ∈ x.2, k ∉ u) ∧
    (∃ x, ZcashdParser.parse_address_purposes dec d = .ok x ∧ ∀ k ∈ x.2, k ∉ u) ∧
    (∃ x, ZcashdParser.parse_sapling_z_addresses dec d = .ok x ∧ ∀ k ∈ x.2, k ∉ u) ∧
    (∃ x, ZcashdParser.parse_sapling_keys dec d = .ok x ∧ ∀ k ∈ x.2, k ∉ u) ∧
    (∃ x, ZcashdParser.parse_transactions dec d s = .ok x ∧ w.transactions = x.1 ∧
      ∀ k ∈ x.2.2, k ∉ u) ∧
    (∃ x, ZcashdParser.parse_client_version dec d "version" = .ok x ∧ ∀ k ∈ x.2, k ∉ u) ∧
    (∃ x, ZcashdParser.parse_i64 dec d "witnesscachesize" = .ok x ∧ ∀ k ∈ x.2, k ∉ u) ∧
    (∃ x, ZcashdParser.parse_wallet_keys dec d = .ok x ∧ ∀ k ∈ x.2, k ∉ u) ∧
    (∃ x, ZcashdParser.parse_sprout_keys dec d = .ok x ∧ ∀ k ∈ x.2, k ∉ u) ∧
    (∃ x, ZcashdParser.parse_network_info dec d = .ok x ∧ ∀ k ∈ x.2, k ∉ u) ∧
    (∃ x, ZcashdParser.parse_orchard_note_commitment_tree dec d = some (.ok x) ∧
      ∀ k ∈ x.2, k ∉ u) ∧
    (∃ x, ZcashdParser.parse_unified_accounts dec d = .ok x ∧ ∀ k ∈ x.2, k ∉ u) ∧
    (∃ x, ZcashdParser.parse_mnemonic_phrase dec d = .ok x ∧ ∀ k ∈ x.2, k ∉ u) ∧
    (∃ x, ZcashdParser.parse_mnemonic_hd_chain dec d = .ok x ∧ ∀ k ∈ x.2, k ∉ u) ∧
    (∃ x, ZcashdParser.parse_send_recipients dec d = .ok x ∧ ∀ k ∈ x.2, k ∉ u) ∧
    (∃ x, ZcashdParser.parse_opt_block_locator dec d "bestblock_nomerkle" = .ok x ∧
      ∀ k ∈ x.2, k ∉ u) := by
  unfold ZcashdParser.parse at h
  split at h
  case h_1 =>
    rw [Option.some.injEq] at h
    injection h
  case h_2 heq =>
    obtain ⟨x₁, h₁, heq⟩ := excBind_eq_ok heq
    obtain ⟨x₂, h₂, heq⟩ := excBind_eq_ok heq
    obtain ⟨x₃, h₃, heq⟩ := excBind_eq_ok heq
    obtain ⟨x₄, h₄, heq⟩ := excBind_eq_ok heq
    obtain ⟨x₅, h₅, heq⟩ := excBind_eq_ok heq
    obtain ⟨x₆, h₆, heq⟩ := excBind_eq_ok heq
    obtain ⟨x₇, h₇, heq⟩ := excBind_eq_ok heq
    obtain ⟨x₈, h₈, heq⟩ := excBind_eq_ok heq
    obtain ⟨x₉, h₉, heq⟩ := excBind_eq_ok heq
    obtain ⟨x₁₀, h₁₀, heq⟩ := excBind_eq_ok heq
    obtain ⟨x₁₁, h₁₁, heq⟩ := excBind_eq_ok heq
    obtain ⟨x₁₂, h₁₂, heq⟩ := excBind_eq_ok heq
    obtain ⟨x₁₃, h₁₃, heq⟩ := excBind_eq_ok heq
    obtain ⟨x₁₄, h₁₄, heq⟩ := excBind_eq_ok heq
    obtain ⟨x₁₅, h₁₅, heq⟩ := excBind_eq_ok heq
    obtain ⟨x₁₆, h₁₆, heq⟩ := excBind_eq_ok heq
    obtain ⟨x₁₇, h₁₇, heq⟩ := excBind_eq_ok heq
    simp only [Except.ok.injEq, Prod.mk.injEq] at heq
    obtain ⟨e₁, e₂, e₃, e₄, e₅, e₆, e₇, e₈, e₉, e₁₀, e₁₁, e₁₂, e₁₃, e₁₄, e₁₅, e₁₆,
      e₁₇⟩ := heq
    subst e₁ e₂ e₃ e₄ e₅ e₆ e₇ e₈ e₉ e₁₀ e₁₁ e₁₂ e₁₃ e₁₄ e₁₅ e₁₆ e₁₇
    split at h
    case h_1 =>
      injection h
    case h_2 orchRes heq₂ =>
      rw [Option.some.injEq] at h
      obtain ⟨x₁₈, h₁₈, h⟩ := excBind_eq_ok h
      obtain ⟨x₁₉, h₁₉, h⟩ := excBind_eq_ok h
      obtain ⟨x₂₀, h₂₀, h⟩ := excBind_eq_ok h
      obtain ⟨x₂₁, h₂₁, h⟩ := excBind_eq_ok h
      obtain ⟨x₂₂, h₂₂, h⟩ := excBind_eq_ok h
      obtain ⟨x₂₃, h₂₃, h⟩ := excBind_eq_ok h
      rw [h₁₈] at heq₂
      simp only [Except.ok.injEq, Prod.mk.injEq] at h
      obtain ⟨hw, hu⟩ := h
      subst hu
      subst hw
      have hnotin : ∀ (cs : Finset DBKey), (∀ k ∈ cs,
          k ∈ x₁.2 ∪ x₂.2 ∪ x₃.2 ∪ x₄.2 ∪ x₅.2 ∪ x₆.2 ∪ x₇.2 ∪ x₈.2 ∪ x₉.2 ∪ x₁₀.2 ∪
            x₁₁.2 ∪ x₁₂.2.2 ∪ x₁₃.2 ∪ x₁₄.2 ∪ x₁₅.2 ∪ x₁₆.2 ∪ x₁₇.2 ∪ x₁₈.2 ∪ x₁₉.2 ∪
            x₂₀.2 ∪ x₂₁.2 ∪ x₂₂.2 ∪ x₂₃.2) →
          ∀ k ∈ cs, k ∉ d.allKeys \
            (x₁.2 ∪ x₂.2 ∪ x₃.2 ∪ x₄.2 ∪ x₅.2 ∪ x₆.2 ∪ x₇.2 ∪ x₈.2 ∪ x₉.2 ∪ x₁₀.2 ∪
              x₁₁.2 ∪ x₁₂.2.2 ∪ x₁₃.2 ∪ x₁₄.2 ∪ x₁₅.2 ∪ x₁₆.2 ∪ x₁₇.2 ∪ x₁₈.2 ∪ x₁₉.2 ∪
              x₂₀.2 ∪ x₂₁.2 ∪ x₂₂.2 ∪ x₂₃.2) := by
        intro cs hsub k hk
        rw [Finset.mem_sdiff]
        rintro ⟨-, hnot⟩
        exact hnot (hsub k hk)
      refine ⟨⟨x₁, h₁, ?_⟩, ⟨x₂, h₂, ?_⟩, ⟨x₃, h₃, ?_⟩, ⟨x₄, h₄, ?_⟩, ⟨x₅, h₅, ?_⟩,
        ⟨x₆, h₆, ?_⟩, ⟨x₇, h₇, ?_⟩, ⟨x₈, h₈, ?_⟩, ⟨x₉, h₉, ?_⟩, ⟨x₁₀, h₁₀, ?_⟩,
        ⟨x₁₁, h₁₁, ?_⟩, ⟨x₁₂, h₁₂, rfl, ?_⟩, ⟨x₁₃, h₁₃, ?_⟩, ⟨x₁₄, h₁₄, ?_⟩,
        ⟨x₁₅, h₁₅, ?_⟩, ⟨x₁₆, h₁₆, ?_⟩, ⟨x₁₇, h₁₇, ?_⟩, ⟨x₁₈, heq₂, ?_⟩,
        ⟨x₁₉, h₁₉, ?_⟩, ⟨x₂₀, h₂₀, ?_⟩, ⟨x₂₁, h₂₁, ?_⟩, ⟨x₂₂, h₂₂, ?_⟩,
        ⟨x₂₃, h₂₃, ?_⟩⟩
      all_goals
        apply hnotin
        intro k hk
        simp only [Finset.mem_union]
        tauto

theorem hmLookup_insert {K V : Type} [DecidableEq K] (a k : K) (v : V) (m : List (K × V)) :
    hmLookup a (hmInsert k v m) = if k = a then some v else hmLookup a m := by
  induction m with
  | nil => simp [hmInsert, hmLookup]
  | cons p rest ih =>
    obtain ⟨k', v'⟩ := p
    by_cases hk : k' = k
    · subst hk
      simp only [hmInsert, if_pos rfl, hmLookup]
      by_cases ha : k' = a <;> simp [ha]
    · simp only [hmInsert, if_neg hk, hmLookup, ih]
      by_cases ha : k' = a
      · subst ha
        have : ¬ k = k' := fun hh => hk hh.symm
        simp [this]
      · simp [ha]

theorem hmContains_insert_eq_false {K V : Type} [DecidableEq K] {a k : K} {v : V}
    {m : List (K × V)} (h : hmContains a (hmInsert k v m) = false) :
    hmContains a m = false ∧ k ≠ a := by
  unfold hmContains at h ⊢
  rw [hmLookup_insert] at h
  by_cases hk : k = a
  · rw [if_pos hk] at h
    simp at h
  · rw [if_neg hk] at h
    exact ⟨h, hk⟩

/-- Successful run of the `name` loop: every processed record's decoded
address was absent from the starting map. -/
theorem addressNamesGo_ok_not_contains (dec : Decoders) (l : List Record)
    (m : List (Address × String)) (c : Finset DBKey)
    (res : List (Address × String) × Finset DBKey)
    (h : ZcashdParser.parseAddressNamesGo dec l m c = .ok res) :
    ∀ r ∈ l, ∃ a, parseBufCtx "address" dec.address r.1.data = .ok a ∧
      hmContains a m = false := by
  induction l generalizing m c with
  | nil => intro r hr; exact absurd hr (List.not_mem_nil r)
  | cons p rest ih =>
    obtain ⟨key, value⟩ := p
    unfold ZcashdParser.parseAddressNamesGo at h
    obtain ⟨a, ha, h⟩ := excBind_eq_ok h
    obtain ⟨nm, hnm, h⟩ := excBind_eq_ok h
    cases hc : hmContains a m with
    | true => rw [hc] at h; simp at h
    | false =>
      rw [hc] at h
      simp only [Bool.false_eq_true, if_false] at h
      intro r hr
      rcases List.mem_cons.mp hr with hhd | htl
      · subst hhd
        exact ⟨a, ha, hc⟩
      · obtain ⟨a', ha', hc'⟩ := ih (hmInsert a nm m) (insert key c) h r htl
        exact ⟨a', ha', (hmContains_insert_eq_false hc').1⟩

/-- Two distinct `name` records with the same decoded address make the loop
fail, whatever else it processes. -/
theorem addressNamesGo_dup_not_ok (dec : Decoders) :
    ∀ (l : List Record) (k₁ k₂ : DBKey) (v₁ v₂ : DBValue) (a : Address),
      (k₁, v₁) ∈ l → (k₂, v₂) ∈ l → k₁ ≠ k₂ →
      parseBufCtx "address" dec.address k₁.data = .ok a →
      parseBufCtx "address" dec.address k₂.data = .ok a →
      ∀ (m : List (Address × String)) (c : Finset DBKey) res,
        ZcashdParser.parseAddressNamesGo dec l m c ≠ .ok res := by
  intro l
  induction l with
  | nil =>
    intro k₁ k₂ v₁ v₂ a h₁
    exact absurd h₁ (List.not_mem_nil _)
  | cons p rest ih =>
    intro k₁ k₂ v₁ v₂ a h₁ h₂ hne ha₁ ha₂ m c res hok
    obtain ⟨key, value⟩ := p
    unfold ZcashdParser.parseAddressNamesGo at hok
    cases ha' : parseBufCtx "address" dec.address key.data with
    | error e => rw [ha'] at hok; simp at hok
    | ok a' =>
    rw [ha'] at hok
    simp only [excBind_ok] at hok
    cases hnm : parseBufCtx "name" dec.stringD value with
    | error e => rw [hnm] at hok; simp at hok
    | ok nm =>
    rw [hnm] at hok
    simp only [excBind_ok] at hok
    cases hc : hmContains a' m with
    | true => rw [hc] at hok; simp at hok
    | false =>
      rw [hc] at hok
      simp only [Bool.false_eq_true, if_false] at hok
      rcases List.mem_cons.mp h₁ with h₁h | h₁t
      · injection h₁h with hk hv
        subst hk
        subst hv
        have haa : a' = a := by
          rw [ha₁] at ha'
          simpa using ha'.symm
        subst haa
        rcases List.mem_cons.mp h₂ with h₂h | h₂t
        · injection h₂h with hk₂ hv₂
          exact hne hk₂.symm
        · obtain ⟨a₂, ha₂', hc₂⟩ :=
            addressNamesGo_ok_not_contains dec rest _ _ res hok (k₂, v₂) h₂t
          have he : a₂ = a' := by rw [ha₂] at ha₂'; simpa using ha₂'.symm
          subst he
          exact absurd rfl (hmContains_insert_eq_false hc₂).2
      · rcases List.mem_cons.mp h₂ with h₂h | h₂t
        · injection h₂h with hk₂ hv₂
          subst hk₂
          subst hv₂
          have haa : a' = a := by
            rw [ha₂] at ha'
            simpa using ha'.symm
          subst haa
          obtain ⟨a₁, ha₁', hc₁⟩ :=
            addressNamesGo_ok_not_contains dec rest _ _ res hok (k₁, v₁) h₁t
          have he : a₁ = a' := by rw [ha₁] at ha₁'; simpa using ha₁'.symm
          subst he
          exact absurd rfl (hmContains_insert_eq_false hc₁).2
        · exact ih k₁ k₂ v₁ v₂ a h₁t h₂t hne ha₁ ha₂ _ _ res hok

/-- When every record of the `name` loop decodes, the loop either succeeds
or fails precisely with the duplicate-address error. -/
theorem addressNamesGo_ok_or_dup (dec : Decoders) :
    ∀ (l : List Record),
      (∀ r ∈ l, (∃ a, parseBufCtx "address" dec.address r.1.data = .ok a) ∧
        (∃ s, parseBufCtx "name" dec.stringD r.2 = .ok s)) →
      ∀ (m : List (Address × String)) (c : Finset DBKey),
        (∃ res, ZcashdParser.parseAddressNamesGo dec l m c = .ok res) ∨
        (∃ a, ZcashdParser.parseAddressNamesGo dec l m c =
          .error (.duplicateAddressFound a)) := by
  intro l
  induction l with
  | nil =>
    intro _ m c
    exact Or.inl ⟨(m, c), rfl⟩
  | cons p rest ih =>
    intro hdec m c
    obtain ⟨key, value⟩ := p
    obtain ⟨⟨a, ha⟩, ⟨nm, hnm⟩⟩ := hdec (key, value) (List.mem_cons_self _ _)
    unfold ZcashdParser.parseAddressNamesGo
    rw [ha]
    simp only [excBind_ok]
    rw [hnm]
    simp only [excBind_ok]
    cases hc : hmContains a m with
    | true =>
      right
      exact ⟨a, by rw [if_pos rfl]⟩
    | false =>
      rw [if_neg (by simp)]
      exact ih (fun r hr => hdec r (List.mem_cons_of_mem _ hr)) (hmInsert a nm m)
        (insert key c)

theorem has_of_mem (d : ZcashdDump) (kn : String) (r : Record)
    (hr : r ∈ d.records) (hkn : r.1.keyname = kn) :
    d.has_keys_for_keyname kn = true := by
  unfold ZcashdDump.has_keys_for_keyname
  rw [List.any_eq_true]
  exact ⟨r, hr, by simp [hkn]⟩

/-- C7: two `name` records with identical decoded address values (all `name`
records decoding) fail reconstruction with the duplicate-address failure —
the category's parse yields the `DuplicateRecord`-class error and the whole
pass cannot succeed. -/
theorem C7_name_duplicate_error (dec : Decoders) (d : ZcashdDump)
    (k₁ k₂ : DBKey) (v₁ v₂ : DBValue) (a : Address)
    (h₁ : (k₁, v₁) ∈ d.records) (h₂ : (k₂, v₂) ∈ d.records)
    (hkn₁ : k₁.keyname = "name") (hkn₂ : k₂.keyname = "name") (hne : k₁ ≠ k₂)
    (ha₁ : parseBufCtx "address" dec.address k₁.data = .ok a)
    (ha₂ : parseBufCtx "address" dec.address k₂.data = .ok a)
    (hdec : ∀ r ∈ d.records, r.1.keyname = "name" →
      (∃ a', parseBufCtx "address" dec.address r.1.data = .ok a') ∧
      (∃ s, parseBufCtx "name" dec.stringD r.2 = .ok s)) :
    (∃ a', ZcashdParser.parse_address_names dec d =
      .error (.duplicateAddressFound a')) ∧
    (∀ s w u, ZcashdParser.parse dec d s ≠ some (.ok (w, u))) := by
  have hhas : d.has_keys_for_keyname "name" = true := has_of_mem d "name" (k₁, v₁) h₁ hkn₁
  have hm₁ : (k₁, v₁) ∈ d.records.filter (fun r => r.1.keyname = "name") := by
    rw [List.mem_filter]; exact ⟨h₁, by simp [hkn₁]⟩
  have hm₂ : (k₂, v₂) ∈ d.records.filter (fun r => r.1.keyname = "name") := by
    rw [List.mem_filter]; exact ⟨h₂, by simp [hkn₂]⟩
  have hrf := records_for_keyname_of_has d "name" hhas
  have hnotok : ∀ res, ZcashdParser.parseAddressNamesGo dec
      (d.records.filter (fun r => r.1.keyname = "name")) [] ∅ ≠ .ok res :=
    fun res => addressNamesGo_dup_not_ok dec _ k₁ k₂ v₁ v₂ a hm₁ hm₂ hne ha₁ ha₂ [] ∅ res
  have hdec' : ∀ r ∈ d.records.filter (fun r => r.1.keyname = "name"),
      (∃ a', parseBufCtx "address" dec.address r.1.data = .ok a') ∧
      (∃ s, parseBufCtx "name" dec.stringD r.2 = .ok s) := by
    intro r hr
    rw [List.mem_filter] at hr
    exact hdec r hr.1 (by simpa using hr.2)
  constructor
  · rcases addressNamesGo_ok_or_dup dec _ hdec' [] ∅ with ⟨res, hres⟩ | ⟨a', ha'⟩
    · exact absurd hres (hnotok res)
    · refine ⟨a', ?_⟩
      unfold ZcashdParser.parse_address_names
      rw [hrf]
      simp only [ctxE_ok, excBind_ok]
      exact ha'
  · intro s w u hok
    obtain ⟨-, -, -, -, -, ⟨x₆, h₆, -⟩, -⟩ := parse_ok_parts dec d s w u hok
    unfold ZcashdParser.parse_address_names at h₆
    rw [hrf] at h₆
    simp only [ctxE_ok, excBind_ok] at h₆
    exact hnotok x₆ h₆

/-- Consume one byte and jump to the end of the buffer: a witness decoder
that is deliberately not injective on raw key bytes. -/
def read1SkipAs {α : Type} (g : Bytes → α) : ParserM α := fun p =>
  (p.next 1).map (fun x => (g x.1, ⟨x.2.data, x.2.data.length⟩))

def dupAddrDec : Decoders := { trivDec with address := read1SkipAs Address.mk }

/-- A default wallet value used to instantiate universally quantified
conclusions in witnesses. -/
def defWallet : ZcashdWallet :=
  ⟨[], [], none, ⟨[]⟩, ⟨[]⟩, ⟨[]⟩, [], [], ⟨[]⟩, none, ⟨[]⟩, ⟨[], none⟩, ⟨[]⟩, ⟨[]⟩,
    none, [], [], [], none, none, [], UnifiedAccounts.none, 0⟩

theorem C7_name_duplicate_error_witness :
    ZcashdParser.parse_address_names dupAddrDec
      ⟨[(⟨"name", [5, 0]⟩, [1]), (⟨"name", [5, 1]⟩, [2])]⟩ =
      .error (.duplicateAddressFound ⟨[5]⟩) ∧
    ZcashdParser.parse dupAddrDec
      ⟨[(⟨"name", [5, 0]⟩, [1]), (⟨"name", [5, 1]⟩, [2])]⟩ false ≠
      some (.ok (defWallet, ∅)) :=
  ⟨by decide,
   (C7_name_duplicate_error dupAddrDec ⟨[(⟨"name", [5, 0]⟩, [1]), (⟨"name", [5, 1]⟩, [2])]⟩
      ⟨"name", [5, 0]⟩ ⟨"name", [5, 1]⟩ [1] [2] ⟨[5]⟩
      (by decide) (by decide) (by decide) (by decide) (by decide) (by decide) (by decide)
      (by
        intro r hr hkn
        simp only [List.mem_cons, List.not_mem_nil, or_false] at hr
        rcases hr with rfl | rfl
        · exact ⟨⟨⟨[5]⟩, by decide⟩, ⟨"", by decide⟩⟩
        · exact ⟨⟨⟨[5]⟩, by decide⟩, ⟨"", by decide⟩⟩)).2
      false defWallet ∅⟩

/-- C2 (amended): when both categories of a key/metadata pair are present in
the dump and their record counts differ, the category's parse fails with the
mismatched-records failure — before any entity is decoded (the conclusion
holds for every decoder) — and the whole pass cannot succeed.  (When a
guarded primary category such as `sapzkey` is entirely absent, its metadata
records are ignored rather than failing the pass: see the counterexample.) -/
theorem C2_paired_count_mismatch (d : ZcashdDump) :
    (d.has_keys_for_keyname "key" = true →
      d.has_keys_for_keyname "keymeta" = true →
      (d.records.filter (fun r => r.1.keyname = "key")).length ≠
        (d.records.filter (fun r => r.1.keyname = "keymeta")).length →
      (∀ dec, ZcashdParser.parse_keys dec d =
        .error (.message "Mismatched key and keymeta records")) ∧
      (∀ dec s w u, ZcashdParser.parse dec d s ≠ some (.ok (w, u)))) ∧
    (d.has_keys_for_keyname "sapzkey" = true →
      d.has_keys_for_keyname "sapzkeymeta" = true →
      (d.records.filter (fun r => r.1.keyname = "sapzkey")).length ≠
        (d.records.filter (fun r => r.1.keyname = "sapzkeymeta")).length →
      (∀ dec, ZcashdParser.parse_sapling_keys dec d =
        .error (.message "Mismatched sapzkey and sapzkeymeta records")) ∧
      (∀ dec s w u, ZcashdParser.parse dec d s ≠ some (.ok (w, u)))) := by
  constructor
  · intro hk hm hmis
    have herr : ∀ dec, ZcashdParser.parse_keys dec d =
        .error (.message "Mismatched key and keymeta records") := by
      intro dec
      unfold ZcashdParser.parse_keys
      rw [records_for_keyname_of_has d "key" hk,
        records_for_keyname_of_has d "keymeta" hm]
      simp only [ctxE_ok, excBind_ok]
      rw [if_pos hmis]
    refine ⟨herr, ?_⟩
    intro dec s w u hok
    obtain ⟨-, -, -, ⟨x₄, h₄, -⟩, -⟩ := parse_ok_parts dec d s w u hok
    rw [herr dec] at h₄
    exact Except.noConfusion h₄
  · intro hk hm hmis
    have herr : ∀ dec, ZcashdParser.parse_sapling_keys dec d =
        .error (.message "Mismatched sapzkey and sapzkeymeta records") := by
      intro dec
      unfold ZcashdParser.parse_sapling_keys
      rw [if_neg (by simp [hk])]
      rw [records_for_keyname_of_has d "sapzkey" hk,
        records_for_keyname_of_has d "sapzkeymeta" hm]
      simp only [ctxE_ok, excBind_ok]
      rw [if_pos hmis]
    refine ⟨herr, ?_⟩
    intro dec s w u hok
    obtain ⟨-, -, -, -, -, -, -, -, -, -, ⟨x₁₁, h₁₁, -⟩, -⟩ :=
      parse_ok_parts dec d s w u hok
    rw [herr dec] at h₁₁
    exact Except.noConfusion h₁₁

/-- C2 counterexample: a dump with zero `sapzkey` records but two
`sapzkeymeta` records — the pair's counts differ, yet the whole pass
succeeds (the metadata records are merely left unclaimed). -/
theorem C2_counterexample :
    ((⟨baseRecords ++ [(⟨"sapzkeymeta", [30]⟩, [15]), (⟨"sapzkeymeta", [31]⟩, [16])]⟩ :
        ZcashdDump).records.filter (fun r => r.1.keyname = "sapzkey")).length = 0 ∧
    ((⟨baseRecords ++ [(⟨"sapzkeymeta", [30]⟩, [15]), (⟨"sapzkeymeta", [31]⟩, [16])]⟩ :
        ZcashdDump).records.filter (fun r => r.1.keyname = "sapzkeymeta")).length = 2 ∧
    poeIsOk (ZcashdParser.parse trivDec
      ⟨baseRecords ++ [(⟨"sapzkeymeta", [30]⟩, [15]), (⟨"sapzkeymeta", [31]⟩, [16])]⟩
      false) = true :=
  ⟨by decide, by decide, by decide⟩

theorem C2_paired_count_mismatch_witness :
    ZcashdParser.parse_keys trivDec
      ⟨[(⟨"key", [1]⟩, [0]), (⟨"key", [2]⟩, [0]), (⟨"key", [3]⟩, [0]),
        (⟨"keymeta", [1]⟩, [0]), (⟨"keymeta", [2]⟩, [0])]⟩ =
      .error (.message "Mismatched key and keymeta records") ∧
    ZcashdParser.parse trivDec
      ⟨[(⟨"key", [1]⟩, [0]), (⟨"key", [2]⟩, [0]), (⟨"key", [3]⟩, [0]),
        (⟨"keymeta", [1]⟩, [0]), (⟨"keymeta", [2]⟩, [0])]⟩ false ≠
      some (.ok (defWallet, ∅)) := by
  have h := (C2_paired_count_mismatch
    ⟨[(⟨"key", [1]⟩, [0]), (⟨"key", [2]⟩, [0]), (⟨"key", [3]⟩, [0]),
      (⟨"keymeta", [1]⟩, [0]), (⟨"keymeta", [2]⟩, [0])]⟩).1
    (by decide) (by decide) (by decide)
  exact ⟨h.1 trivDec, h.2 trivDec false defWallet ∅⟩

/-- Strict mode: a transaction record whose value fails to decode makes the
transaction loop fail, whatever else it processes. -/
theorem transactionsGo_strict_fail (dec : Decoders) :
    ∀ (l : List Record) (k : DBKey) (v : DBValue) (e : Err),
      (k, v) ∈ l →
      parseBufCtx "transaction" dec.walletTx v = .error e →
      ∀ (m : List (TxId × WalletTx)) (diags : List TxDiag) (c : Finset DBKey) res,
        ZcashdParser.parseTransactionsGo dec true l m diags c ≠ .ok res := by
  intro l
  induction l with
  | nil =>
    intro k v e h₁
    exact absurd h₁ (List.not_mem_nil _)
  | cons p rest ih =>
    intro k v e hmem hfail m diags c res hok
    obtain ⟨key, value⟩ := p
    unfold ZcashdParser.parseTransactionsGo at hok
    cases hid : parseBufCtx "transaction ID" dec.txId key.data with
    | error e' => rw [hid] at hok; simp at hok
    | ok txid =>
      rw [hid] at hok
      simp only [excBind_ok] at hok
      rcases List.mem_cons.mp hmem with hh | ht
      · injection hh with hk hv
        subst hk
        subst hv
        rw [hfail] at hok
        simp at hok
      · cases htx : parseBufCtx "transaction" dec.walletTx value with
        | error e₂ =>
          rw [htx] at hok
          simp at hok
        | ok t =>
          rw [htx] at hok
          simp only at hok
          cases hct : hmContains txid m with
          | true => rw [hct] at hok; simp at hok
          | false =>
            rw [hct] at hok
            simp only [Bool.false_eq_true, if_false] at hok
            exact ih k v e ht hfail _ _ _ res hok

/-- C1: the dual transaction policy.  Strict: any failure to decode a `tx`
record's value aborts the transaction category and hence the whole pass.
Lenient (one well-formed and one malformed record, in key order): the decode
failure is downgraded to a diagnostic carrying the hex-encoded raw value
bytes and the error, only that transaction is omitted, both records are
claimed, and the pass continues — the resulting wallet holds only the
well-formed transaction.  A duplicate txid among transactions that did
decode is fatal in both modes. -/
theorem C1_transaction_policy (dec : Decoders) (d : ZcashdDump) :
    (∀ k v e, (k, v) ∈ d.records → k.keyname = "tx" →
      parseBufCtx "transaction" dec.walletTx v = .error e →
      (∀ res, ZcashdParser.parse_transactions dec d true ≠ .ok res) ∧
      (∀ w u, ZcashdParser.parse dec d true ≠ some (.ok (w, u)))) ∧
    (∀ k₁ k₂ v₁ v₂ id₁ id₂ t₁ e,
      d.records.filter (fun r => r.1.keyname = "tx") = [(k₁, v₁), (k₂, v₂)] →
      recordLe (k₁, v₁) (k₂, v₂) = true →
      parseBufCtx "transaction ID" dec.txId k₁.data = .ok id₁ →
      parseBufCtx "transaction ID" dec.txId k₂.data = .ok id₂ →
      parseBufCtx "transaction" dec.walletTx v₁ = .ok t₁ →
      parseBufCtx "transaction" dec.walletTx v₂ = .error e →
      ZcashdParser.parse_transactions dec d false =
        .ok ([(id₁, t₁)], [⟨hexEncode v₂, e⟩], insert k₁ {k₂}) ∧
      (∀ w u, ZcashdParser.parse dec d false = some (.ok (w, u)) →
        w.transactions = [(id₁, t₁)])) ∧
    (∀ k₁ k₂ v₁ v₂ id₁ id₂ t₁ t₂,
      d.records.filter (fun r => r.1.keyname = "tx") = [(k₁, v₁), (k₂, v₂)] →
      recordLe (k₁, v₁) (k₂, v₂) = true →
      parseBufCtx "transaction ID" dec.txId k₁.data = .ok id₁ →
      parseBufCtx "transaction ID" dec.txId k₂.data = .ok id₂ →
      parseBufCtx "transaction" dec.walletTx v₁ = .ok t₁ →
      parseBufCtx "transaction" dec.walletTx v₂ = .ok t₂ →
      id₂ = id₁ →
      ∀ s, ZcashdParser.parse_transactions dec d s =
        .error (.duplicateTransactionFound id₁)) := by
  refine ⟨?_, ?_, ?_⟩
  · intro k v e hmem hkn hfail
    have hhas : d.has_keys_for_keyname "tx" = true := has_of_mem d "tx" (k, v) hmem hkn
    have hmf : (k, v) ∈ d.records.filter (fun r => r.1.keyname = "tx") := by
      rw [List.mem_filter]
      exact ⟨hmem, by simp [hkn]⟩
    have hms : (k, v) ∈ (d.records.filter (fun r => r.1.keyname = "tx")).mergeSort
        recordLe := List.mem_mergeSort.mpr hmf
    have hnotok : ∀ res, ZcashdParser.parse_transactions dec d true ≠ .ok res := by
      intro res hok
      unfold ZcashdParser.parse_transactions at hok
      rw [if_pos hhas, records_for_keyname_of_has d "tx" hhas] at hok
      simp only [ctxE_ok, excBind_ok] at hok
      exact transactionsGo_strict_fail dec _ k v e hms hfail [] [] ∅ res hok
    refine ⟨hnotok, ?_⟩
    intro w u hok
    obtain ⟨-, -, -, -, -, -, -, -, -, -, -, ⟨x₁₂, h₁₂, -, -⟩, -⟩ :=
      parse_ok_parts dec d true w u hok
    exact hnotok x₁₂ h₁₂
  · intro k₁ k₂ v₁ v₂ id₁ id₂ t₁ e hrec hle hid₁ hid₂ ht₁ hfail
    have hhas : d.has_keys_for_keyname "tx" = true :=
      has_of_filter_eq_cons d "tx" (k₁, v₁) [(k₂, v₂)] hrec
    have hsorted : (d.records.filter (fun r => r.1.keyname = "tx")).mergeSort recordLe =
        [(k₁, v₁), (k₂, v₂)] := by
      rw [hrec]
      exact List.mergeSort_of_sorted (by simp [List.pairwise_cons, hle])
    have hgo : ZcashdParser.parse_transactions dec d false =
        .ok ([(id₁, t₁)], [⟨hexEncode v₂, e⟩], insert k₁ {k₂}) := by
      unfold ZcashdParser.parse_transactions
      rw [if_pos hhas, records_for_keyname_of_has d "tx" hhas]
      simp only [ctxE_ok, excBind_ok]
      rw [hsorted]
      unfold ZcashdParser.parseTransactionsGo
      rw [hid₁]
      simp only [excBind_ok]
      rw [ht₁]
      simp only [hmContains, hmLookup, Option.isSome_none, Bool.false_eq_true, if_false]
      unfold ZcashdParser.parseTransactionsGo
      rw [hid₂]
      simp only [excBind_ok]
      rw [hfail]
      simp only [Bool.not_false, if_true]
      unfold ZcashdParser.parseTransactionsGo
      rw [LawfulSingleton.insert_emptyc_eq, Finset.pair_comm k₂ k₁]
      rfl
    refine ⟨hgo, ?_⟩
    intro w u hok
    obtain ⟨-, -, -, -, -, -, -, -, -, -, -, ⟨x₁₂, h₁₂, htx, -⟩, -⟩ :=
      parse_ok_parts dec d false w u hok
    rw [hgo] at h₁₂
    rw [htx, (Except.ok.injEq _ _).mp h₁₂.symm]
  · intro k₁ k₂ v₁ v₂ id₁ id₂ t₁ t₂ hrec hle hid₁ hid₂ ht₁ ht₂ hdup s
    have hhas : d.has_keys_for_keyname "tx" = true :=
      has_of_filter_eq_cons d "tx" (k₁, v₁) [(k₂, v₂)] hrec
    have hsorted : (d.records.filter (fun r => r.1.keyname = "tx")).mergeSort recordLe =
        [(k₁, v₁), (k₂, v₂)] := by
      rw [hrec]
      exact List.mergeSort_of_sorted (by simp [List.pairwise_cons, hle])
    unfold ZcashdParser.parse_transactions
    rw [if_pos hhas, records_for_keyname_of_has d "tx" hhas]
    simp only [ctxE_ok, excBind_ok]
    rw [hsorted]
    unfold ZcashdParser.parseTransactionsGo
    rw [hid₁]
    simp only [excBind_ok]
    rw [ht₁]
    simp only [hmContains, hmLookup, Option.isSome_none, Bool.false_eq_true, if_false]
    unfold ZcashdParser.parseTransactionsGo
    rw [hid₂]
    simp only [excBind_ok]
    rw [ht₂, hdup]
    simp [hmContains, hmLookup, hmInsert]

/-- Witness decoder whose transaction decode fails exactly on values whose
first byte is 0xBB. -/
def txFailDec : Decoders :=
  { trivDec with walletTx := fun p =>
      if (p.data.drop p.offset).head? = some 187 then .error (.message "bad tx")
      else (readAll p).map (fun x => (WalletTx.mk x.1, x.2)) }

/-- Witness decoder whose txid decode keeps only the first key byte, so
distinct raw keys can decode to the same transaction identifier. -/
def dupTxDec : Decoders := { trivDec with txId := read1SkipAs TxId.mk }

theorem C1_transaction_policy_witness :
    ZcashdParser.parse_transactions txFailDec
      ⟨baseRecords ++ [(⟨"tx", [1]⟩, [170]), (⟨"tx", [2]⟩, [187])]⟩ true ≠
      .ok ([], [], ∅) ∧
    ZcashdParser.parse txFailDec
      ⟨baseRecords ++ [(⟨"tx", [1]⟩, [170]), (⟨"tx", [2]⟩, [187])]⟩ true ≠
      some (.ok (defWallet, ∅)) ∧
    ZcashdParser.parse_transactions txFailDec
      ⟨baseRecords ++ [(⟨"tx", [1]⟩, [170]), (⟨"tx", [2]⟩, [187])]⟩ false =
      .ok ([(⟨[1]⟩, ⟨[170]⟩)],
        [⟨"bb", .context "Parsing transaction" (.message "bad tx")⟩],
        insert (⟨"tx", [1]⟩ : DBKey) {⟨"tx", [2]⟩}) ∧
    ZcashdParser.parse_transactions dupTxDec
      ⟨[(⟨"tx", [9, 0]⟩, [21]), (⟨"tx", [9, 1]⟩, [22])]⟩ true =
      .error (.duplicateTransactionFound ⟨[9]⟩) := by
  have h := C1_transaction_policy txFailDec
    ⟨baseRecords ++ [(⟨"tx", [1]⟩, [170]), (⟨"tx", [2]⟩, [187])]⟩
  have hdup := C1_transaction_policy dupTxDec
    ⟨[(⟨"tx", [9, 0]⟩, [21]), (⟨"tx", [9, 1]⟩, [22])]⟩
  have h1 := h.1 ⟨"tx", [2]⟩ [187] (.context "Parsing transaction" (.message "bad tx"))
    (by decide) (by decide) (by decide)
  refine ⟨h1.1 ([], [], ∅), h1.2 defWallet ∅, ?_, ?_⟩
  · exact (h.2.1 ⟨"tx", [1]⟩ ⟨"tx", [2]⟩ [170] [187] ⟨[1]⟩ ⟨[2]⟩ ⟨[170]⟩
      (.context "Parsing transaction" (.message "bad tx"))
      (by decide) (by decide) (by decide) (by decide) (by decide) (by decide)).1
  · exact hdup.2.2 ⟨"tx", [9, 0]⟩ ⟨"tx", [9, 1]⟩ [21] [22] ⟨[9]⟩ ⟨[9]⟩ ⟨[21]⟩ ⟨[22]⟩
      (by decide) (by decide) (by decide) (by decide) (by decide) (by decide) rfl true

/- Order facts about the lexicographic byte comparison and key-sorted
transaction records. -/

def unclaimedOf (x : POE (ZcashdWallet × Finset DBKey)) : Finset DBKey :=
  match x with
  | some (.ok (_, u)) => u
  | _ => ∅

theorem ctxE_eq_ok {α : Type} {msg : String} {x : Except Err α} {a : α}
    (h : ctxE msg x = .ok a) : x = .ok a := by
  cases x with
  | ok b => simpa using h
  | error e => simp [ctxE] at h

theorem record_for_keyname_ok (d : ZcashdDump) (kn : String) (r₀ : Record)
    (h : d.record_for_keyname kn = .ok r₀) :
    d.records.filter (fun r => r.1.keyname = kn) = [r₀] := by
  unfold ZcashdDump.record_for_keyname at h
  split at h
  case h_1 r heq =>
    rw [heq]
    injection h with h'
    rw [h']
  case h_2 => simp at h

/-- The scalar-category lookup claims the category's one record. -/
theorem value_for_keyname_claims (d : ZcashdDump) (kn : String) (v : DBValue)
    (c : Finset DBKey) (h : ZcashdParser.value_for_keyname d kn = .ok (v, c)) :
    ∀ r ∈ d.records, r.1.keyname = kn → r.1 ∈ c := by
  unfold ZcashdParser.value_for_keyname at h
  split at h
  case h_1 k₀ v₀ heq =>
    have hf := record_for_keyname_ok d kn (k₀, v₀) heq
    injection h with h'
    injection h' with hv hc
    intro r hr hkn
    have hmem : r ∈ d.records.filter (fun x => x.1.keyname = kn) := by
      rw [List.mem_filter]
      exact ⟨hr, by simp [hkn]⟩
    rw [hf] at hmem
    have hr0 : r = (k₀, v₀) := by simpa using hmem
    subst hr0
    rw [← hc]
    exact Finset.mem_singleton_self _
  case h_2 => exact absurd h (by simp)

/-- A stored value lookup succeeds only for a key the dump holds. -/
theorem value_for_key_mem (d : ZcashdDump) (k : DBKey) (v : DBValue)
    (h : d.value_for_key k = .ok v) :
    ∃ r ∈ d.records, r.1 = k := by
  unfold ZcashdDump.value_for_key at h
  split at h
  case h_1 r heq =>
    refine ⟨r, List.mem_of_find?_eq_some heq, ?_⟩
    have := List.find?_some heq
    simpa using this
  case h_2 => exact absurd h (by simp)

theorem parseAddressNamesGo_claims (dec : Decoders) :
    ∀ (l : List Record) (m : List (Address × String)) (c : Finset DBKey) res,
      ZcashdParser.parseAddressNamesGo dec l m c = .ok res →
      c ⊆ res.2 ∧ ∀ r ∈ l, r.1 ∈ res.2 := by
  intro l
  induction l with
  | nil =>
    intro m c res h
    obtain rfl : (m, c) = res := Except.ok.inj h
    exact ⟨Finset.Subset.refl c, fun r hr => absurd hr (List.not_mem_nil r)⟩
  | cons p rest ih =>
    intro m c res h
    obtain ⟨key, value⟩ := p
    unfold ZcashdParser.parseAddressNamesGo at h
    obtain ⟨a, ha, h⟩ := excBind_eq_ok h
    obtain ⟨nm, hnm, h⟩ := excBind_eq_ok h
    cases hc : hmContains a m with
    | true => rw [hc] at h; simp at h
    | false =>
      rw [hc] at h
      simp only [Bool.false_eq_true, if_false] at h
      obtain ⟨hsub, hall⟩ := ih (hmInsert a nm m) (insert key c) res h
      refine ⟨fun k hk => hsub (Finset.mem_insert_of_mem hk), ?_⟩
      intro r hr
      rcases List.mem_cons.mp hr with rfl | htl
      · exact hsub (Finset.mem_insert_self _ _)
      · exact hall r htl

theorem parseAddressPurposesGo_claims (dec : Decoders) :
    ∀ (l : List Record) (m : List (Address × String)) (c : Finset DBKey) res,
      ZcashdParser.parseAddressPurposesGo dec l m c = .ok res →
      c ⊆ res.2 ∧ ∀ r ∈ l, r.1 ∈ res.2 := by
  intro l
  induction l with
  | nil =>
    intro m c res h
    obtain rfl : (m, c) = res := Except.ok.inj h
    exact ⟨Finset.Subset.refl c, fun r hr => absurd hr (List.not_mem_nil r)⟩
  | cons p rest ih =>
    intro m c res h
    obtain ⟨key, value⟩ := p
    unfold ZcashdParser.parseAddressPurposesGo at h
    obtain ⟨a, ha, h⟩ := excBind_eq_ok h
    obtain ⟨nm, hnm, h⟩ := excBind_eq_ok h
    cases hc : hmContains a m with
    | true => rw [hc] at h; simp at h
    | false =>
      rw [hc] at h
      simp only [Bool.false_eq_true, if_false] at h
      obtain ⟨hsub, hall⟩ := ih (hmInsert a nm m) (insert key c) res h
      refine ⟨fun k hk => hsub (Finset.mem_insert_of_mem hk), ?_⟩
      intro r hr
      rcases List.mem_cons.mp hr with rfl | htl
      · exact hsub (Finset.mem_insert_self _ _)
      · exact hall r htl

theorem parseSaplingZAddressesGo_claims (dec : Decoders) :
    ∀ (l : List Record) (m : List (SaplingZPaymentAddress × SaplingIncomingViewingKey))
      (c : Finset DBKey) res,
      ZcashdParser.parseSaplingZAddressesGo dec l m c = .ok res →
      c ⊆ res.2 ∧ ∀ r ∈ l, r.1 ∈ res.2 := by
  intro l
  induction l with
  | nil =>
    intro m c res h
    obtain rfl : (m, c) = res := Except.ok.inj h
    exact ⟨Finset.Subset.refl c, fun r hr => absurd hr (List.not_mem_nil r)⟩
  | cons p rest ih =>
    intro m c res h
    obtain ⟨key, value⟩ := p
    unfold ZcashdParser.parseSaplingZAddressesGo at h
    obtain ⟨a, ha, h⟩ := excBind_eq_ok h
    obtain ⟨vk, hvk, h⟩ := excBind_eq_ok h
    cases hc : hmContains a m with
    | true => rw [hc] at h; simp at h
    | false =>
      rw [hc] at h
      simp only [Bool.false_eq_true, if_false] at h
      obtain ⟨hsub, hall⟩ := ih (hmInsert a vk m) (insert key c) res h
      refine ⟨fun k hk => hsub (Finset.mem_insert_of_mem hk), ?_⟩
      intro r hr
      rcases List.mem_cons.mp hr with rfl | htl
      · exact hsub (Finset.mem_insert_self _ _)
      · exact hall r htl

theorem parseKeyPoolGo_claims (dec : Decoders) :
    ∀ (l : List Record) (m : List (Int × KeyPoolEntry)) (c : Finset DBKey) res,
      ZcashdParser.parseKeyPoolGo dec l m c = .ok res →
      c ⊆ res.2 ∧ ∀ r ∈ l, r.1 ∈ res.2 := by
  intro l
  induction l with
  | nil =>
    intro m c res h
    obtain rfl : (m, c) = res := Except.ok.inj h
    exact ⟨Finset.Subset.refl c, fun r hr => absurd hr (List.not_mem_nil r)⟩
  | cons p rest ih =>
    intro m c res h
    obtain ⟨key, value⟩ := p
    unfold ZcashdParser.parseKeyPoolGo at h
    obtain ⟨i, hi, h⟩ := excBind_eq_ok h
    obtain ⟨entry, hentry, h⟩ := excBind_eq_ok h
    obtain ⟨hsub, hall⟩ := ih (hmInsert i entry m) (insert key c) res h
    refine ⟨fun k hk => hsub (Finset.mem_insert_of_mem hk), ?_⟩
    intro r hr
    rcases List.mem_cons.mp hr with rfl | htl
    · exact hsub (Finset.mem_insert_self _ _)
    · exact hall r htl

theorem parseUnifiedFvkGo_claims (dec : Decoders) :
    ∀ (l : List Record) (m : List (UfvkFingerprint × UnifiedFullViewingKey))
      (c : Finset DBKey) res,
      ZcashdParser.parseUnifiedFvkGo dec l m c = .ok res →
      c ⊆ res.2 ∧ ∀ r ∈ l, r.1 ∈ res.2 := by
  intro l
  induction l with
  | nil =>
    intro m c res h
    obtain rfl : (m, c) = res := Except.ok.inj h
    exact ⟨Finset.Subset.refl c, fun r hr => absurd hr (List.not_mem_nil r)⟩
  | cons p rest ih =>
    intro m c res h
    obtain ⟨key, value⟩ := p
    unfold ZcashdParser.parseUnifiedFvkGo at h
    obtain ⟨kid, hkid, h⟩ := excBind_eq_ok h
    obtain ⟨fvk, hfvk, h⟩ := excBind_eq_ok h
    obtain ⟨hsub, hall⟩ := ih (hmInsert kid fvk m) (insert key c) res h
    refine ⟨fun k hk => hsub (Finset.mem_insert_of_mem hk), ?_⟩
    intro r hr
    rcases List.mem_cons.mp hr with rfl | htl
    · exact hsub (Finset.mem_insert_self _ _)
    · exact hall r htl

theorem parseWalletKeysGo_claims (dec : Decoders) :
    ∀ (l : List Record) (m : WalletKeys) (c : Finset DBKey) res,
      ZcashdParser.parseWalletKeysGo dec l m c = .ok res →
      c ⊆ res.2 ∧ ∀ r ∈ l, r.1 ∈ res.2 := by
  intro l
  induction l with
  | nil =>
    intro m c res h
    obtain rfl : (m, c) = res := Except.ok.inj h
    exact ⟨Finset.Subset.refl c, fun r hr => absurd hr (List.not_mem_nil r)⟩
  | cons p rest ih =>
    intro m c res h
    obtain ⟨key, value⟩ := p
    unfold ZcashdParser.parseWalletKeysGo at h
    obtain ⟨pubkey, hpk, h⟩ := excBind_eq_ok h
    obtain ⟨x₁, hx₁, h⟩ := excBind_eq_ok h
    obtain ⟨privkey, p₁⟩ := x₁
    obtain ⟨x₂, hx₂, h⟩ := excBind_eq_ok h
    obtain ⟨tc, p₂⟩ := x₂
    obtain ⟨x₃, hx₃, h⟩ := excBind_eq_ok h
    obtain ⟨te, p₃⟩ := x₃
    obtain ⟨x₄, hx₄, h⟩ := excBind_eq_ok h
    obtain ⟨comment, p₄⟩ := x₄
    obtain ⟨hsub, hall⟩ := ih _ (insert key c) res h
    refine ⟨fun k hk => hsub (Finset.mem_insert_of_mem hk), ?_⟩
    intro r hr
    rcases List.mem_cons.mp hr with rfl | htl
    · exact hsub (Finset.mem_insert_self _ _)
    · exact hall r htl

theorem parseSendRecipientsGo_claims (dec : Decoders) :
    ∀ (l : List Record) (m : List (TxId × List RecipientMapping)) (c : Finset DBKey) res,
      ZcashdParser.parseSendRecipientsGo dec l m c = .ok res →
      c ⊆ res.2 ∧ ∀ r ∈ l, r.1 ∈ res.2 := by
  intro l
  induction l with
  | nil =>
    intro m c res h
    obtain rfl : (m, c) = res := Except.ok.inj h
    exact ⟨Finset.Subset.refl c, fun r hr => absurd hr (List.not_mem_nil r)⟩
  | cons p rest ih =>
    intro m c res h
    obtain ⟨key, value⟩ := p
    unfold ZcashdParser.parseSendRecipientsGo at h
    obtain ⟨x₁, hx₁, h⟩ := excBind_eq_ok h
    obtain ⟨txid, p₁⟩ := x₁
    obtain ⟨x₂, hx₂, h⟩ := excBind_eq_ok h
    obtain ⟨ra, p₂⟩ := x₂
    obtain ⟨u, hu, h⟩ := excBind_eq_ok h
    obtain ⟨ua, hua, h⟩ := excBind_eq_ok h
    obtain ⟨hsub, hall⟩ := ih _ (insert key c) res h
    refine ⟨fun k hk => hsub (Finset.mem_insert_of_mem hk), ?_⟩
    intro r hr
    rcases List.mem_cons.mp hr with rfl | htl
    · exact hsub (Finset.mem_insert_self _ _)
    · exact hall r htl

theorem parseUnifiedAddrMetaGo_claims (dec : Decoders) :
    ∀ (l : List Record) (am : List UnifiedAddressMetadata) (c : Finset DBKey) res,
      ZcashdParser.parseUnifiedAddrMetaGo dec l am c = .ok res →
      c ⊆ res.2 ∧ ∀ r ∈ l, r.1 ∈ res.2 := by
  intro l
  induction l with
  | nil =>
    intro am c res h
    obtain rfl : (am, c) = res := Except.ok.inj h
    exact ⟨Finset.Subset.refl c, fun r hr => absurd hr (List.not_mem_nil r)⟩
  | cons p rest ih =>
    intro am c res h
    obtain ⟨key, value⟩ := p
    unfold ZcashdParser.parseUnifiedAddrMetaGo at h
    obtain ⟨metadata, hmd, h⟩ := excBind_eq_ok h
    obtain ⟨v, hv, h⟩ := excBind_eq_ok h
    split at h
    · simp at h
    · obtain ⟨hsub, hall⟩ := ih _ (insert key c) res h
      refine ⟨fun k hk => hsub (Finset.mem_insert_of_mem hk), ?_⟩
      intro r hr
      rcases List.mem_cons.mp hr with rfl | htl
      · exact hsub (Finset.mem_insert_self _ _)
      · exact hall r htl

theorem parseUnifiedAccountGo_claims (dec : Decoders) :
    ∀ (l : List Record) (m : List (UfvkFingerprint × UnifiedAccountMetadata))
      (c : Finset DBKey) res,
      ZcashdParser.parseUnifiedAccountGo dec l m c = .ok res →
      c ⊆ res.2 ∧ ∀ r ∈ l, r.1 ∈ res.2 := by
  intro l
  induction l with
  | nil =>
    intro m c res h
    obtain rfl : (m, c) = res := Except.ok.inj h
    exact ⟨Finset.Subset.refl c, fun r hr => absurd hr (List.not_mem_nil r)⟩
  | cons p rest ih =>
    intro m c res h
    obtain ⟨key, value⟩ := p
    unfold ZcashdParser.parseUnifiedAccountGo at h
    obtain ⟨metadata, hmd, h⟩ := excBind_eq_ok h
    obtain ⟨v, hv, h⟩ := excBind_eq_ok h
    split at h
    · simp at h
    · obtain ⟨hsub, hall⟩ := ih _ (insert key c) res h
      refine ⟨fun k hk => hsub (Finset.mem_insert_of_mem hk), ?_⟩
      intro r hr
      rcases List.mem_cons.mp hr with rfl | htl
      · exact hsub (Finset.mem_insert_self _ _)
      · exact hall r htl

theorem parseTransactionsGo_claims (dec : Decoders) (strict : Bool) :
    ∀ (l : List Record) (m : List (TxId × WalletTx)) (diags : List TxDiag)
      (c : Finset DBKey) res,
      ZcashdParser.parseTransactionsGo dec strict l m diags c = .ok res →
      c ⊆ res.2.2 ∧ ∀ r ∈ l, r.1 ∈ res.2.2 := by
  intro l
  induction l with
  | nil =>
    intro m diags c res h
    obtain rfl : (m, diags, c) = res := Except.ok.inj h
    exact ⟨Finset.Subset.refl c, fun r hr => absurd hr (List.not_mem_nil r)⟩
  | cons p rest ih =>
    intro m diags c res h
    obtain ⟨key, value⟩ := p
    unfold ZcashdParser.parseTransactionsGo at h
    obtain ⟨txid, htxid, h⟩ := excBind_eq_ok h
    cases htx : parseBufCtx "transaction" dec.walletTx value with
    | ok transaction =>
      rw [htx] at h
      cases hc : hmContains txid m with
      | true => rw [hc] at h; simp at h
      | false =>
        rw [hc] at h
        simp only [Bool.false_eq_true, if_false] at h
        obtain ⟨hsub, hall⟩ := ih _ diags (insert key c) res h
        refine ⟨fun k hk => hsub (Finset.mem_insert_of_mem hk), ?_⟩
        intro r hr
        rcases List.mem_cons.mp hr with rfl | htl
        · exact hsub (Finset.mem_insert_self _ _)
        · exact hall r htl
    | error e =>
      rw [htx] at h
      cases strict with
      | true => simp at h
      | false =>
        simp only [Bool.not_false, if_true] at h
        obtain ⟨hsub, hall⟩ := ih _ _ (insert key c) res h
        refine ⟨fun k hk => hsub (Finset.mem_insert_of_mem hk), ?_⟩
        intro r hr
        rcases List.mem_cons.mp hr with rfl | htl
        · exact hsub (Finset.mem_insert_self _ _)
        · exact hall r htl

/-- The `key` loop claims every `key` record together with its co-keyed
`keymeta` record, and the claimed metadata key is a genuine record of the
dump (the metadata lookup succeeded). -/
theorem parseKeysGo_claims (dec : Decoders) (d : ZcashdDump) :
    ∀ (l : List Record) (m : Keys) (c : Finset DBKey) res,
      ZcashdParser.parseKeysGo dec d l m c = .ok res →
      c ⊆ res.2 ∧ ∀ r ∈ l, r.1 ∈ res.2 ∧
        (⟨"keymeta", r.1.data⟩ : DBKey) ∈ res.2 ∧
        ∃ rec ∈ d.records, rec.1 = (⟨"keymeta", r.1.data⟩ : DBKey) := by
  intro l
  induction l with
  | nil =>
    intro m c res h
    obtain rfl : (m, c) = res := Except.ok.inj h
    exact ⟨Finset.Subset.refl c, fun r hr => absurd hr (List.not_mem_nil r)⟩
  | cons p rest ih =>
    intro m c res h
    obtain ⟨key, value⟩ := p
    unfold ZcashdParser.parseKeysGo at h
    obtain ⟨pubkey, hpk, h⟩ := excBind_eq_ok h
    obtain ⟨privkey, hprv, h⟩ := excBind_eq_ok h
    obtain ⟨mb, hmb, h⟩ := excBind_eq_ok h
    obtain ⟨metadata, hmd, h⟩ := excBind_eq_ok h
    obtain ⟨keypair, hkp, h⟩ := excBind_eq_ok h
    obtain ⟨hsub, hall⟩ := ih _ (insert key (insert ⟨"keymeta", key.data⟩ c)) res h
    refine ⟨fun k hk =>
      hsub (Finset.mem_insert_of_mem (Finset.mem_insert_of_mem hk)), ?_⟩
    intro r hr
    rcases List.mem_cons.mp hr with rfl | htl
    · refine ⟨hsub (Finset.mem_insert_self _ _),
        hsub (Finset.mem_insert_of_mem (Finset.mem_insert_self _ _)), ?_⟩
      exact value_for_key_mem d _ mb (ctxE_eq_ok hmb)
    · exact hall r htl

/-- The `sapzkey` loop claims every `sapzkey` record together with its
co-keyed `sapzkeymeta` record, which is a genuine record of the dump. -/
theorem parseSaplingKeysGo_claims (dec : Decoders) (d : ZcashdDump) :
    ∀ (l : List Record) (m : SaplingKeys) (c : Finset DBKey) res,
      ZcashdParser.parseSaplingKeysGo dec d l m c = .ok res →
      c ⊆ res.2 ∧ ∀ r ∈ l, r.1 ∈ res.2 ∧
        (⟨"sapzkeymeta", r.1.data⟩ : DBKey) ∈ res.2 ∧
        ∃ rec ∈ d.records, rec.1 = (⟨"sapzkeymeta", r.1.data⟩ : DBKey) := by
  intro l
  induction l with
  | nil =>
    intro m c res h
    obtain rfl : (m, c) = res := Except.ok.inj h
    exact ⟨Finset.Subset.refl c, fun r hr => absurd hr (List.not_mem_nil r)⟩
  | cons p rest ih =>
    intro m c res h
    obtain ⟨key, value⟩ := p
    unfold ZcashdParser.parseSaplingKeysGo at h
    obtain ⟨ivk, hivk, h⟩ := excBind_eq_ok h
    obtain ⟨sk, hsk, h⟩ := excBind_eq_ok h
    obtain ⟨mb, hmb, h⟩ := excBind_eq_ok h
    obtain ⟨metadata, hmd, h⟩ := excBind_eq_ok h
    obtain ⟨keypair, hkp, h⟩ := excBind_eq_ok h
    obtain ⟨hsub, hall⟩ := ih _ (insert key (insert ⟨"sapzkeymeta", key.data⟩ c)) res h
    refine ⟨fun k hk =>
      hsub (Finset.mem_insert_of_mem (Finset.mem_insert_of_mem hk)), ?_⟩
    intro r hr
    rcases List.mem_cons.mp hr with rfl | htl
    · refine ⟨hsub (Finset.mem_insert_self _ _),
        hsub (Finset.mem_insert_of_mem (Finset.mem_insert_self _ _)), ?_⟩
      exact value_for_key_mem d _ mb (ctxE_eq_ok hmb)
    · exact hall r htl

/-- The `zkey` loop claims every `zkey` record together with its co-keyed
`zkeymeta` record, which is a genuine record of the dump. -/
theorem parseSproutKeysGo_claims (dec : Decoders) (d : ZcashdDump) :
    ∀ (l : List Record) (m : SproutKeys) (c : Finset DBKey) res,
      ZcashdParser.parseSproutKeysGo dec d l m c = .ok res →
      c ⊆ res.2 ∧ ∀ r ∈ l, r.1 ∈ res.2 ∧
        (⟨"zkeymeta", r.1.data⟩ : DBKey) ∈ res.2 ∧
        ∃ rec ∈ d.records, rec.1 = (⟨"zkeymeta", r.1.data⟩ : DBKey) := by
  intro l
  induction l with
  | nil =>
    intro m c res h
    obtain rfl : (m, c) = res := Except.ok.inj h
    exact ⟨Finset.Subset.refl c, fun r hr => absurd hr (List.not_mem_nil r)⟩
  | cons p rest ih =>
    intro m c res h
    obtain ⟨key, value⟩ := p
    unfold ZcashdParser.parseSproutKeysGo at h
    obtain ⟨pa, hpa, h⟩ := excBind_eq_ok h
    obtain ⟨sk, hsk, h⟩ := excBind_eq_ok h
    obtain ⟨mb, hmb, h⟩ := excBind_eq_ok h
    obtain ⟨metadata, hmd, h⟩ := excBind_eq_ok h
    obtain ⟨hsub, hall⟩ := ih _ (insert key (insert ⟨"zkeymeta", key.data⟩ c)) res h
    refine ⟨fun k hk =>
      hsub (Finset.mem_insert_of_mem (Finset.mem_insert_of_mem hk)), ?_⟩
    intro r hr
    rcases List.mem_cons.mp hr with rfl | htl
    · refine ⟨hsub (Finset.mem_insert_self _ _),
        hsub (Finset.mem_insert_of_mem (Finset.mem_insert_self _ _)), ?_⟩
      exact value_for_key_mem d _ mb (ctxE_eq_ok hmb)
    · exact hall r htl

theorem records_for_keyname_eq_ok (d : ZcashdDump) (kn : String) (rs : List Record)
    (h : d.records_for_keyname kn = .ok rs) :
    rs = d.records.filter (fun r => r.1.keyname = kn) := by
  unfold ZcashdDump.records_for_keyname at h
  simp only [] at h
  split at h
  · exact absurd h (by simp)
  · exact (Except.ok.inj h).symm

/-- Pigeonhole for the paired key/metadata categories: when the primary and
metadata record counts agree, the record keys of the dump are globally
distinct, and each primary record contributes a claimed metadata key that is
a genuine record key, every metadata record is claimed. -/
theorem metadata_pigeonhole (d : ZcashdDump) (kn mkn : String) (c : Finset DBKey)
    (hnd : (d.records.map Prod.fst).Nodup)
    (hlen : (d.records.filter (fun r => r.1.keyname = kn)).length =
      (d.records.filter (fun r => r.1.keyname = mkn)).length)
    (hclaim : ∀ r ∈ d.records.filter (fun r => r.1.keyname = kn),
      (⟨mkn, r.1.data⟩ : DBKey) ∈ c ∧
      ∃ rec ∈ d.records, rec.1 = (⟨mkn, r.1.data⟩ : DBKey)) :
    ∀ r ∈ d.records, r.1.keyname = mkn → r.1 ∈ c := by
  classical
  have hsubK : ((d.records.filter (fun r => r.1.keyname = kn)).map Prod.fst).Sublist
      (d.records.map Prod.fst) := List.Sublist.map Prod.fst (List.filter_sublist _)
  have hsubM : ((d.records.filter (fun r => r.1.keyname = mkn)).map Prod.fst).Sublist
      (d.records.map Prod.fst) := List.Sublist.map Prod.fst (List.filter_sublist _)
  have hKnd : ((d.records.filter (fun r => r.1.keyname = kn)).map Prod.fst).Nodup :=
    hnd.sublist hsubK
  have hMnd : ((d.records.filter (fun r => r.1.keyname = mkn)).map Prod.fst).Nodup :=
    hnd.sublist hsubM
  have hmapnd : (((d.records.filter (fun r => r.1.keyname = kn)).map Prod.fst).map
      (fun k => (⟨mkn, k.data⟩ : DBKey))).Nodup := by
    refine List.Nodup.map_on ?_ hKnd
    intro k₁ hk₁ k₂ hk₂ heq
    obtain ⟨r₁, hr₁, rfl⟩ := List.mem_map.mp hk₁
    obtain ⟨r₂, hr₂, rfl⟩ := List.mem_map.mp hk₂
    have h₁ : r₁.1.keyname = kn := by
      have := (List.mem_filter.mp hr₁).2
      simpa using this
    have h₂ : r₂.1.keyname = kn := by
      have := (List.mem_filter.mp hr₂).2
      simpa using this
    have hd : r₁.1.data = r₂.1.data := by
      simpa using congrArg DBKey.data heq
    have hkey : (⟨r₁.1.keyname, r₁.1.data⟩ : DBKey) = ⟨r₂.1.keyname, r₂.1.data⟩ := by
      rw [h₁, h₂, hd]
    exact hkey
  set S := (((d.records.filter (fun r => r.1.keyname = kn)).map Prod.fst).map
      (fun k => (⟨mkn, k.data⟩ : DBKey))).toFinset with hS
  set T := ((d.records.filter (fun r => r.1.keyname = mkn)).map Prod.fst).toFinset with hT
  have hST : S ⊆ T := by
    intro x hx
    rw [hS, List.mem_toFinset] at hx
    obtain ⟨k, hk, hkeq⟩ := List.mem_map.mp hx
    obtain ⟨r₀, hr₀, rfl⟩ := List.mem_map.mp hk
    obtain ⟨rec, hrecmem, hreckey⟩ := (hclaim r₀ hr₀).2
    rw [hT, List.mem_toFinset]
    refine List.mem_map.mpr ⟨rec, ?_, by rw [hreckey, hkeq]⟩
    rw [List.mem_filter]
    exact ⟨hrecmem, by simp [hreckey]⟩
  have hcS : S.card = (d.records.filter (fun r => r.1.keyname = kn)).length := by
    rw [hS, List.toFinset_card_of_nodup hmapnd, List.length_map, List.length_map]
  have hcT : T.card = (d.records.filter (fun r => r.1.keyname = mkn)).length := by
    rw [hT, List.toFinset_card_of_nodup hMnd, List.length_map]
  have hSeqT : S = T := by
    refine Finset.eq_of_subset_of_card_le hST ?_
    rw [hcS, hcT]
    exact le_of_eq hlen.symm
  intro r hr hkn
  have hrT : r.1 ∈ T := by
    rw [hT, List.mem_toFinset]
    refine List.mem_map.mpr ⟨r, ?_, rfl⟩
    rw [List.mem_filter]
    exact ⟨hr, by simp [hkn]⟩
  rw [← hSeqT, hS, List.mem_toFinset] at hrT
  obtain ⟨k, hk, hkeq⟩ := List.mem_map.mp hrT
  obtain ⟨r₀, hr₀, rfl⟩ := List.mem_map.mp hk
  have hc := (hclaim r₀ hr₀).1
  rw [hkeq] at hc
  exact hc

/-- A successful `parse_keys` claims every `key` and every `keymeta` record
(the latter by the count guard plus distinctness of record keys). -/
theorem parse_keys_claims (dec : Decoders) (d : ZcashdDump) (m : Keys) (c : Finset DBKey)
    (hnd : (d.records.map Prod.fst).Nodup)
    (h : ZcashdParser.parse_keys dec d = .ok (m, c)) :
    ∀ r ∈ d.records, (r.1.keyname = "key" ∨ r.1.keyname = "keymeta") → r.1 ∈ c := by
  unfold ZcashdParser.parse_keys at h
  obtain ⟨krecs, hkr, h⟩ := excBind_eq_ok h
  obtain ⟨mrecs, hmr, h⟩ := excBind_eq_ok h
  have hkeq := records_for_keyname_eq_ok d "key" krecs (ctxE_eq_ok hkr)
  have hmeq := records_for_keyname_eq_ok d "keymeta" mrecs (ctxE_eq_ok hmr)
  split at h
  · exact absurd h (by simp)
  · rename_i hlen
    obtain ⟨hsub, hall⟩ := parseKeysGo_claims dec d krecs [] ∅ (m, c) h
    intro r hr hkn
    rcases hkn with hkn | hkn
    · refine (hall r ?_).1
      rw [hkeq, List.mem_filter]
      exact ⟨hr, by simp [hkn]⟩
    · refine metadata_pigeonhole d "key" "keymeta" c hnd ?_ ?_ r hr hkn
      · rw [← hkeq, ← hmeq]
        exact not_ne_iff.mp hlen
      · intro r₀ hr₀
        rw [← hkeq] at hr₀
        exact (hall r₀ hr₀).2

/-- A successful `parse_sapling_keys` with `sapzkey` present claims every
`sapzkey` and every `sapzkeymeta` record. -/
theorem parse_sapling_keys_claims (dec : Decoders) (d : ZcashdDump) (m : SaplingKeys)
    (c : Finset DBKey)
    (hnd : (d.records.map Prod.fst).Nodup)
    (hhas : d.has_keys_for_keyname "sapzkey" = true)
    (h : ZcashdParser.parse_sapling_keys dec d = .ok (m, c)) :
    ∀ r ∈ d.records, (r.1.keyname = "sapzkey" ∨ r.1.keyname = "sapzkeymeta") → r.1 ∈ c := by
  unfold ZcashdParser.parse_sapling_keys at h
  rw [if_neg (by simp [hhas])] at h
  obtain ⟨krecs, hkr, h⟩ := excBind_eq_ok h
  obtain ⟨mrecs, hmr, h⟩ := excBind_eq_ok h
  have hkeq := records_for_keyname_eq_ok d "sapzkey" krecs (ctxE_eq_ok hkr)
  have hmeq := records_for_keyname_eq_ok d "sapzkeymeta" mrecs (ctxE_eq_ok hmr)
  split at h
  · exact absurd h (by simp)
  · rename_i hlen
    obtain ⟨hsub, hall⟩ := parseSaplingKeysGo_claims dec d krecs [] ∅ (m, c) h
    intro r hr hkn
    rcases hkn with hkn | hkn
    · refine (hall r ?_).1
      rw [hkeq, List.mem_filter]
      exact ⟨hr, by simp [hkn]⟩
    · refine metadata_pigeonhole d "sapzkey" "sapzkeymeta" c hnd ?_ ?_ r hr hkn
      · rw [← hkeq, ← hmeq]
        exact not_ne_iff.mp hlen
      · intro r₀ hr₀
        rw [← hkeq] at hr₀
        exact (hall r₀ hr₀).2

/-- A successful `parse_sprout_keys` with `zkey` present claims every `zkey`
and every `zkeymeta` record. -/
theorem parse_sprout_keys_claims (dec : Decoders) (d : ZcashdDump)
    (om : Option SproutKeys) (c : Finset DBKey)
    (hnd : (d.records.map Prod.fst).Nodup)
    (hhas : d.has_keys_for_keyname "zkey" = true)
    (h : ZcashdParser.parse_sprout_keys dec d = .ok (om, c)) :
    ∀ r ∈ d.records, (r.1.keyname = "zkey" ∨ r.1.keyname = "zkeymeta") → r.1 ∈ c := by
  unfold ZcashdParser.parse_sprout_keys at h
  rw [if_neg (by simp [hhas])] at h
  obtain ⟨krecs, hkr, h⟩ := excBind_eq_ok h
  obtain ⟨mrecs, hmr, h⟩ := excBind_eq_ok h
  have hkeq := records_for_keyname_eq_ok d "zkey" krecs (ctxE_eq_ok hkr)
  have hmeq := records_for_keyname_eq_ok d "zkeymeta" mrecs (ctxE_eq_ok hmr)
  split at h
  · exact absurd h (by simp)
  · rename_i hlen
    obtain ⟨x, hx, h⟩ := excBind_eq_ok h
    obtain ⟨m₀, c₀⟩ := x
    have hc : c₀ = c := by
      have := Except.ok.inj h
      exact (Prod.mk.injEq _ _ _ _ ▸ this).2
    rw [← hc]
    obtain ⟨hsub, hall⟩ := parseSproutKeysGo_claims dec d krecs [] ∅ (m₀, c₀) hx
    intro r hr hkn
    rcases hkn with hkn | hkn
    · refine (hall r ?_).1
      rw [hkeq, List.mem_filter]
      exact ⟨hr, by simp [hkn]⟩
    · refine metadata_pigeonhole d "zkey" "zkeymeta" c₀ hnd ?_ ?_ r hr hkn
      · rw [← hkeq, ← hmeq]
        exact not_ne_iff.mp hlen
      · intro r₀ hr₀
        rw [← hkeq] at hr₀
        exact (hall r₀ hr₀).2

theorem parse_block_locator_claims (dec : Decoders) (d : ZcashdDump) (kn : String)
    (x : BlockLocator) (c : Finset DBKey)
    (h : ZcashdParser.parse_block_locator dec d kn = .ok (x, c)) :
    ∀ r ∈ d.records, r.1.keyname = kn → r.1 ∈ c := by
  unfold ZcashdParser.parse_block_locator at h
  obtain ⟨p, hp, h⟩ := excBind_eq_ok h
  obtain ⟨value, c₀⟩ := p
  obtain ⟨y, hy, h⟩ := excBind_eq_ok h
  have hc : c₀ = c := by
    have := Except.ok.inj h
    exact (Prod.mk.injEq _ _ _ _ ▸ this).2
  rw [← hc]
  exact value_for_keyname_claims d kn value c₀ hp

theorem parse_client_version_claims (dec : Decoders) (d : ZcashdDump) (kn : String)
    (x : ClientVersion) (c : Finset DBKey)
    (h : ZcashdParser.parse_client_version dec d kn = .ok (x, c)) :
    ∀ r ∈ d.records, r.1.keyname = kn → r.1 ∈ c := by
  unfold ZcashdParser.parse_client_version at h
  obtain ⟨p, hp, h⟩ := excBind_eq_ok h
  obtain ⟨value, c₀⟩ := p
  obtain ⟨y, hy, h⟩ := excBind_eq_ok h
  have hc : c₀ = c := by
    have := Except.ok.inj h
    exact (Prod.mk.injEq _ _ _ _ ▸ this).2
  rw [← hc]
  exact value_for_keyname_claims d kn value c₀ hp

theorem parse_i64_claims (dec : Decoders) (d : ZcashdDump) (kn : String)
    (x : Int) (c : Finset DBKey)
    (h : ZcashdParser.parse_i64 dec d kn = .ok (x, c)) :
    ∀ r ∈ d.records, r.1.keyname = kn → r.1 ∈ c := by
  unfold ZcashdParser.parse_i64 at h
  obtain ⟨p, hp, h⟩ := excBind_eq_ok h
  obtain ⟨value, c₀⟩ := p
  obtain ⟨y, hy, h⟩ := excBind_eq_ok h
  have hc : c₀ = c := by
    have := Except.ok.inj h
    exact (Prod.mk.injEq _ _ _ _ ▸ this).2
  rw [← hc]
  exact value_for_keyname_claims d kn value c₀ hp

theorem parse_default_key_claims (dec : Decoders) (d : ZcashdDump)
    (x : PubKey) (c : Finset DBKey)
    (h : ZcashdParser.parse_default_key dec d = .ok (x, c)) :
    ∀ r ∈ d.records, r.1.keyname = "defaultkey" → r.1 ∈ c := by
  unfold ZcashdParser.parse_default_key at h
  obtain ⟨p, hp, h⟩ := excBind_eq_ok h
  obtain ⟨value, c₀⟩ := p
  obtain ⟨y, hy, h⟩ := excBind_eq_ok h
  have hc : c₀ = c := by
    have := Except.ok.inj h
    exact (Prod.mk.injEq _ _ _ _ ▸ this).2
  rw [← hc]
  exact value_for_keyname_claims d "defaultkey" value c₀ hp

theorem parse_mnemonic_hd_chain_claims (dec : Decoders) (d : ZcashdDump)
    (x : MnemonicHDChain) (c : Finset DBKey)
    (h : ZcashdParser.parse_mnemonic_hd_chain dec d = .ok (x, c)) :
    ∀ r ∈ d.records, r.1.keyname = "mnemonichdchain" → r.1 ∈ c := by
  unfold ZcashdParser.parse_mnemonic_hd_chain at h
  obtain ⟨p, hp, h⟩ := excBind_eq_ok h
  obtain ⟨value, c₀⟩ := p
  obtain ⟨y, hy, h⟩ := excBind_eq_ok h
  have hc : c₀ = c := by
    have := Except.ok.inj h
    exact (Prod.mk.injEq _ _ _ _ ▸ this).2
  rw [← hc]
  exact value_for_keyname_claims d "mnemonichdchain" value c₀ hp

theorem parse_network_info_claims (dec : Decoders) (d : ZcashdDump)
    (x : NetworkInfo) (c : Finset DBKey)
    (h : ZcashdParser.parse_network_info dec d = .ok (x, c)) :
    ∀ r ∈ d.records, r.1.keyname = "networkinfo" → r.1 ∈ c := by
  unfold ZcashdParser.parse_network_info at h
  obtain ⟨p, hp, h⟩ := excBind_eq_ok h
  obtain ⟨value, c₀⟩ := p
  obtain ⟨y, hy, h⟩ := excBind_eq_ok h
  have hc : c₀ = c := by
    have := Except.ok.inj h
    exact (Prod.mk.injEq _ _ _ _ ▸ this).2
  rw [← hc]
  exact value_for_keyname_claims d "networkinfo" value c₀ (ctxE_eq_ok hp)

theorem parse_opt_i64_claims (dec : Decoders) (d : ZcashdDump) (kn : String)
    (x : Option Int) (c : Finset DBKey)
    (hhas : d.has_value_for_keyname kn = true)
    (h : ZcashdParser.parse_opt_i64 dec d kn = .ok (x, c)) :
    ∀ r ∈ d.records, r.1.keyname = kn → r.1 ∈ c := by
  unfold ZcashdParser.parse_opt_i64 at h
  rw [if_pos hhas] at h
  obtain ⟨p, hp, h⟩ := excBind_eq_ok h
  obtain ⟨x₀, c₀⟩ := p
  have hc : c₀ = c := by
    have := Except.ok.inj h
    exact (Prod.mk.injEq _ _ _ _ ▸ this).2
  rw [← hc]
  exact parse_i64_claims dec d kn x₀ c₀ hp

theorem parse_opt_block_locator_claims (dec : Decoders) (d : ZcashdDump) (kn : String)
    (x : Option BlockLocator) (c : Finset DBKey)
    (hhas : d.has_value_for_keyname kn = true)
    (h : ZcashdParser.parse_opt_block_locator dec d kn = .ok (x, c)) :
    ∀ r ∈ d.records, r.1.keyname = kn → r.1 ∈ c := by
  unfold ZcashdParser.parse_opt_block_locator at h
  rw [if_pos hhas] at h
  obtain ⟨p, hp, h⟩ := excBind_eq_ok h
  obtain ⟨x₀, c₀⟩ := p
  have hc : c₀ = c := by
    have := Except.ok.inj h
    exact (Prod.mk.injEq _ _ _ _ ▸ this).2
  rw [← hc]
  exact parse_block_locator_claims dec d kn x₀ c₀ hp

theorem parse_hdseed_claims (dec : Decoders) (d : ZcashdDump)
    (x : Option LegacySeed) (c : Finset DBKey)
    (hhas : d.has_value_for_keyname "hdseed" = true)
    (h : ZcashdParser.parse_hdseed dec d = .ok (x, c)) :
    ∀ r ∈ d.records, r.1.keyname = "hdseed" → r.1 ∈ c := by
  unfold ZcashdParser.parse_hdseed at h
  rw [if_pos hhas] at h
  obtain ⟨r₀, hr₀, h⟩ := excBind_eq_ok h
  obtain ⟨fp, hfp, h⟩ := excBind_eq_ok h
  obtain ⟨sd, hsd, h⟩ := excBind_eq_ok h
  have hc : ({r₀.1} : Finset DBKey) = c := by
    have := Except.ok.inj h
    exact (Prod.mk.injEq _ _ _ _ ▸ this).2
  rw [← hc]
  have hrec := record_for_keyname_ok d "hdseed" r₀ (ctxE_eq_ok hr₀)
  intro r hr hkn
  have hmem : r ∈ d.records.filter (fun z => z.1.keyname = "hdseed") := by
    rw [List.mem_filter]
    exact ⟨hr, by simp [hkn]⟩
  rw [hrec] at hmem
  have hr0 : r = r₀ := by simpa using hmem
  subst hr0
  exact Finset.mem_singleton_self _

theorem parse_mnemonic_phrase_claims (dec : Decoders) (d : ZcashdDump)
    (x : Bip39Mnemonic) (c : Finset DBKey)
    (h : ZcashdParser.parse_mnemonic_phrase dec d = .ok (x, c)) :
    ∀ r ∈ d.records, r.1.keyname = "mnemonicphrase" → r.1 ∈ c := by
  unfold ZcashdParser.parse_mnemonic_phrase at h
  obtain ⟨r₀, hr₀, h⟩ := excBind_eq_ok h
  obtain ⟨fp, hfp, h⟩ := excBind_eq_ok h
  obtain ⟨bp, hbp, h⟩ := excBind_eq_ok h
  have hc : ({r₀.1} : Finset DBKey) = c := by
    have := Except.ok.inj h
    exact (Prod.mk.injEq _ _ _ _ ▸ this).2
  rw [← hc]
  have hrec := record_for_keyname_ok d "mnemonicphrase" r₀ (ctxE_eq_ok hr₀)
  intro r hr hkn
  have hmem : r ∈ d.records.filter (fun z => z.1.keyname = "mnemonicphrase") := by
    rw [List.mem_filter]
    exact ⟨hr, by simp [hkn]⟩
  rw [hrec] at hmem
  have hr0 : r = r₀ := by simpa using hmem
  subst hr0
  exact Finset.mem_singleton_self _

theorem parse_orchard_claims (dec : Decoders) (d : ZcashdDump)
    (x : OrchardNoteCommitmentTree) (c : Finset DBKey)
    (h : ZcashdParser.parse_orchard_note_commitment_tree dec d = some (.ok (x, c))) :
    ∀ r ∈ d.records, r.1.keyname = "orchard_note_commitment_tree" → r.1 ∈ c := by
  unfold ZcashdParser.parse_orchard_note_commitment_tree at h
  split at h
  case h_1 e heq => simp at h
  case h_2 value c₀ heq =>
    split at h
    · rw [Option.some.injEq] at h
      obtain ⟨t₀, ht₀, h⟩ := excBind_eq_ok h
      have hc : c₀ = c := by
        have := Except.ok.inj h
        exact (Prod.mk.injEq _ _ _ _ ▸ this).2
      rw [← hc]
      exact value_for_keyname_claims d "orchard_note_commitment_tree" value c₀
        (ctxE_eq_ok heq)
    · exact absurd h (by simp)

theorem parse_address_names_claims (dec : Decoders) (d : ZcashdDump)
    (m : List (Address × String)) (c : Finset DBKey)
    (h : ZcashdParser.parse_address_names dec d = .ok (m, c)) :
    ∀ r ∈ d.records, r.1.keyname = "name" → r.1 ∈ c := by
  unfold ZcashdParser.parse_address_names at h
  obtain ⟨recs, hrecs, h⟩ := excBind_eq_ok h
  have heq := records_for_keyname_eq_ok d "name" recs (ctxE_eq_ok hrecs)
  obtain ⟨hsub, hall⟩ := parseAddressNamesGo_claims dec recs [] ∅ (m, c) h
  intro r hr hkn
  refine hall r ?_
  rw [heq, List.mem_filter]
  exact ⟨hr, by simp [hkn]⟩

theorem parse_address_purposes_claims (dec : Decoders) (d : ZcashdDump)
    (m : List (Address × String)) (c : Finset DBKey)
    (h : ZcashdParser.parse_address_purposes dec d = .ok (m, c)) :
    ∀ r ∈ d.records, r.1.keyname = "purpose" → r.1 ∈ c := by
  unfold ZcashdParser.parse_address_purposes at h
  obtain ⟨recs, hrecs, h⟩ := excBind_eq_ok h
  have heq := records_for_keyname_eq_ok d "purpose" recs (ctxE_eq_ok hrecs)
  obtain ⟨hsub, hall⟩ := parseAddressPurposesGo_claims dec recs [] ∅ (m, c) h
  intro r hr hkn
  refine hall r ?_
  rw [heq, List.mem_filter]
  exact ⟨hr, by simp [hkn]⟩

theorem parse_key_pool_claims (dec : Decoders) (d : ZcashdDump)
    (m : List (Int × KeyPoolEntry)) (c : Finset DBKey)
    (h : ZcashdParser.parse_key_pool dec d = .ok (m, c)) :
    ∀ r ∈ d.records, r.1.keyname = "pool" → r.1 ∈ c := by
  unfold ZcashdParser.parse_key_pool at h
  obtain ⟨recs, hrecs, h⟩ := excBind_eq_ok h
  have heq := records_for_keyname_eq_ok d "pool" recs (ctxE_eq_ok hrecs)
  obtain ⟨hsub, hall⟩ := parseKeyPoolGo_claims dec recs [] ∅ (m, c) h
  intro r hr hkn
  refine hall r ?_
  rw [heq, List.mem_filter]
  exact ⟨hr, by simp [hkn]⟩

theorem parse_sapling_z_addresses_claims (dec : Decoders) (d : ZcashdDump)
    (m : List (SaplingZPaymentAddress × SaplingIncomingViewingKey)) (c : Finset DBKey)
    (hhas : d.has_keys_for_keyname "sapzaddr" = true)
    (h : ZcashdParser.parse_sapling_z_addresses dec d = .ok (m, c)) :
    ∀ r ∈ d.records, r.1.keyname = "sapzaddr" → r.1 ∈ c := by
  unfold ZcashdParser.parse_sapling_z_addresses at h
  rw [if_neg (by simp [hhas])] at h
  obtain ⟨recs, hrecs, h⟩ := excBind_eq_ok h
  have heq := records_for_keyname_eq_ok d "sapzaddr" recs (ctxE_eq_ok hrecs)
  obtain ⟨hsub, hall⟩ := parseSaplingZAddressesGo_claims dec recs [] ∅ (m, c) h
  intro r hr hkn
  refine hall r ?_
  rw [heq, List.mem_filter]
  exact ⟨hr, by simp [hkn]⟩

theorem parse_send_recipients_claims (dec : Decoders) (d : ZcashdDump)
    (m : List (TxId × List RecipientMapping)) (c : Finset DBKey)
    (hhas : d.has_keys_for_keyname "recipientmapping" = true)
    (h : ZcashdParser.parse_send_recipients dec d = .ok (m, c)) :
    ∀ r ∈ d.records, r.1.keyname = "recipientmapping" → r.1 ∈ c := by
  unfold ZcashdParser.parse_send_recipients at h
  rw [if_neg (by simp [hhas])] at h
  obtain ⟨recs, hrecs, h⟩ := excBind_eq_ok h
  have heq := records_for_keyname_eq_ok d "recipientmapping" recs (ctxE_eq_ok hrecs)
  obtain ⟨hsub, hall⟩ := parseSendRecipientsGo_claims dec recs [] ∅ (m, c) h
  intro r hr hkn
  refine hall r ?_
  rw [heq, List.mem_filter]
  exact ⟨hr, by simp [hkn]⟩

theorem parse_wallet_keys_claims (dec : Decoders) (d : ZcashdDump)
    (om : Option WalletKeys) (c : Finset DBKey)
    (hhas : d.has_keys_for_keyname "wkey" = true)
    (h : ZcashdParser.parse_wallet_keys dec d = .ok (om, c)) :
    ∀ r ∈ d.records, r.1.keyname = "wkey" → r.1 ∈ c := by
  unfold ZcashdParser.parse_wallet_keys at h
  rw [if_neg (by simp [hhas])] at h
  obtain ⟨recs, hrecs, h⟩ := excBind_eq_ok h
  have heq := records_for_keyname_eq_ok d "wkey" recs (ctxE_eq_ok hrecs)
  intro r hr hkn
  have hmem : r ∈ recs := by
    rw [heq, List.mem_filter]
    exact ⟨hr, by simp [hkn]⟩
  split at h
  · rename_i hemp
    rw [List.isEmpty_iff] at hemp
    rw [hemp] at hmem
    exact absurd hmem (List.not_mem_nil r)
  · obtain ⟨p, hp, h⟩ := excBind_eq_ok h
    obtain ⟨m₀, c₀⟩ := p
    have hc : c₀ = c := by
      have := Except.ok.inj h
      exact (Prod.mk.injEq _ _ _ _ ▸ this).2
    rw [← hc]
    exact (parseWalletKeysGo_claims dec recs [] ∅ (m₀, c₀) hp).2 r hmem

theorem parse_transactions_claims (dec : Decoders) (d : ZcashdDump) (strict : Bool)
    (m : List (TxId × WalletTx)) (diags : List TxDiag) (c : Finset DBKey)
    (hhas : d.has_keys_for_keyname "tx" = true)
    (h : ZcashdParser.parse_transactions dec d strict = .ok (m, diags, c)) :
    ∀ r ∈ d.records, r.1.keyname = "tx" → r.1 ∈ c := by
  unfold ZcashdParser.parse_transactions at h
  rw [if_pos hhas] at h
  obtain ⟨recs, hrecs, h⟩ := excBind_eq_ok h
  have heq := records_for_keyname_eq_ok d "tx" recs (ctxE_eq_ok hrecs)
  obtain ⟨hsub, hall⟩ := parseTransactionsGo_claims dec strict (recs.mergeSort recordLe)
    [] [] ∅ (m, diags, c) h
  intro r hr hkn
  refine hall r ?_
  rw [List.mem_mergeSort, heq, List.mem_filter]
  exact ⟨hr, by simp [hkn]⟩

theorem parse_unified_accounts_claims (dec : Decoders) (d : ZcashdDump)
    (ua : UnifiedAccounts) (c : Finset DBKey)
    (hhas : d.has_keys_for_keyname "unifiedaddrmeta" = true)
    (h : ZcashdParser.parse_unified_accounts dec d = .ok (ua, c)) :
    ∀ r ∈ d.records,
      (r.1.keyname = "unifiedaddrmeta" ∨ r.1.keyname = "unifiedaccount" ∨
        r.1.keyname = "unifiedfvk") → r.1 ∈ c := by
  unfold ZcashdParser.parse_unified_accounts at h
  rw [if_neg (by simp [hhas])] at h
  obtain ⟨arecs, harecs, h⟩ := excBind_eq_ok h
  obtain ⟨p₁, hp₁, h⟩ := excBind_eq_ok h
  obtain ⟨am, c₁⟩ := p₁
  obtain ⟨crecs, hcrecs, h⟩ := excBind_eq_ok h
  obtain ⟨p₂, hp₂, h⟩ := excBind_eq_ok h
  obtain ⟨acm, c₂⟩ := p₂
  obtain ⟨frecs, hfrecs, h⟩ := excBind_eq_ok h
  obtain ⟨p₃, hp₃, h⟩ := excBind_eq_ok h
  obtain ⟨fvks, c₃⟩ := p₃
  have hc : c₁ ∪ c₂ ∪ c₃ = c := by
    have := Except.ok.inj h
    exact (Prod.mk.injEq _ _ _ _ ▸ this).2
  rw [← hc]
  have haeq := records_for_keyname_eq_ok d "unifiedaddrmeta" arecs harecs
  have hceq := records_for_keyname_eq_ok d "unifiedaccount" crecs hcrecs
  have hfeq := records_for_keyname_eq_ok d "unifiedfvk" frecs hfrecs
  intro r hr hkn
  rcases hkn with hkn | hkn | hkn
  · refine Finset.mem_union_left _ (Finset.mem_union_left _ ?_)
    refine (parseUnifiedAddrMetaGo_claims dec arecs [] ∅ (am, c₁) hp₁).2 r ?_
    rw [haeq, List.mem_filter]
    exact ⟨hr, by simp [hkn]⟩
  · refine Finset.mem_union_left _ (Finset.mem_union_right _ ?_)
    refine (parseUnifiedAccountGo_claims dec crecs [] ∅ (acm, c₂) hp₂).2 r ?_
    rw [hceq, List.mem_filter]
    exact ⟨hr, by simp [hkn]⟩
  · refine Finset.mem_union_right _ ?_
    refine (parseUnifiedFvkGo_claims dec frecs [] ∅ (fvks, c₃) hp₃).2 r ?_
    rw [hfeq, List.mem_filter]
    exact ⟨hr, by simp [hkn]⟩

set_option maxHeartbeats 1000000 in
/-- C10: in a successful lenient pass every `tx` record — including one whose
value fails to decode — is claimed by the transaction step, so no `tx` record
appears in the returned unclaimed set; and (given globally distinct record
keys) the unclaimed set holds no record of any category a decoder processed,
i.e. it contains only records of unprocessed categories. -/
theorem C10_lenient_claims (dec : Decoders) (d : ZcashdDump) (w : ZcashdWallet)
    (u : Finset DBKey)
    (hnd : (d.records.map Prod.fst).Nodup)
    (h : ZcashdParser.parse dec d false = some (.ok (w, u))) :
    (∀ m diags c, ZcashdParser.parse_transactions dec d false = .ok (m, diags, c) →
      ∀ r ∈ d.records, r.1.keyname = "tx" → r.1 ∈ c) ∧
    (∀ r ∈ d.records, r.1.keyname = "tx" → r.1 ∉ u) ∧
    (∀ r ∈ d.records, r.1.keyname ∈ processedKeynames d → r.1 ∉ u) := by
  obtain ⟨⟨x₁, h₁, n₁⟩, ⟨x₂, h₂, n₂⟩, ⟨x₃, h₃, n₃⟩, ⟨x₄, h₄, n₄⟩, ⟨x₅, h₅, n₅⟩,
    ⟨x₆, h₆, n₆⟩, ⟨x₇, h₇, n₇⟩, ⟨x₈, h₈, n₈⟩, ⟨x₉, h₉, n₉⟩, ⟨x₁₀, h₁₀, n₁₀⟩,
    ⟨x₁₁, h₁₁, n₁₁⟩, ⟨x₁₂, h₁₂, hw₁₂, n₁₂⟩, ⟨x₁₃, h₁₃, n₁₃⟩, ⟨x₁₄, h₁₄, n₁₄⟩,
    ⟨x₁₅, h₁₅, n₁₅⟩, ⟨x₁₆, h₁₆, n₁₆⟩, ⟨x₁₇, h₁₇, n₁₇⟩, ⟨x₁₈, h₁₈, n₁₈⟩,
    ⟨x₁₉, h₁₉, n₁₉⟩, ⟨x₂₀, h₂₀, n₂₀⟩, ⟨x₂₁, h₂₁, n₂₁⟩, ⟨x₂₂, h₂₂, n₂₂⟩,
    ⟨x₂₃, h₂₃, n₂₃⟩⟩ := parse_ok_parts dec d false w u h
  refine ⟨?_, ?_, ?_⟩
  · intro m diags c hpt r hr hkn
    exact parse_transactions_claims dec d false m diags c
      (has_of_mem d "tx" r hr hkn) hpt r hr hkn
  · intro r hr hkn
    exact n₁₂ r.1 (parse_transactions_claims dec d false x₁₂.1 x₁₂.2.1 x₁₂.2.2
      (has_of_mem d "tx" r hr hkn) h₁₂ r hr hkn)
  · intro r hr hkn
    simp only [processedKeynames, List.mem_append] at hkn
    rcases hkn with
      ((((((((((hA | hB) | hB) | hB) | hB) | hB) | hB) | hB) | hB) | hB) | hB)
    · simp only [List.mem_cons, List.not_mem_nil, or_false] at hA
      rcases hA with hk | hk | hk | hk | hk | hk | hk | hk | hk | hk | hk | hk | hk | hk
      · exact n₁ r.1 (parse_block_locator_claims dec d "bestblock" x₁.1 x₁.2 h₁ r hr hk)
      · exact n₂ r.1 (parse_default_key_claims dec d x₂.1 x₂.2 h₂ r hr hk)
      · exact n₄ r.1 (parse_keys_claims dec d x₄.1 x₄.2 hnd h₄ r hr (Or.inl hk))
      · exact n₄ r.1 (parse_keys_claims dec d x₄.1 x₄.2 hnd h₄ r hr (Or.inr hk))
      · exact n₅ r.1 (parse_client_version_claims dec d "minversion" x₅.1 x₅.2 h₅ r hr hk)
      · exact n₆ r.1 (parse_address_names_claims dec d x₆.1 x₆.2 h₆ r hr hk)
      · exact n₈ r.1 (parse_key_pool_claims dec d x₈.1 x₈.2 h₈ r hr hk)
      · exact n₉ r.1 (parse_address_purposes_claims dec d x₉.1 x₉.2 h₉ r hr hk)
      · exact n₁₃ r.1 (parse_client_version_claims dec d "version" x₁₃.1 x₁₃.2 h₁₃ r hr hk)
      · exact n₁₄ r.1 (parse_i64_claims dec d "witnesscachesize" x₁₄.1 x₁₄.2 h₁₄ r hr hk)
      · exact n₁₇ r.1 (parse_network_info_claims dec d x₁₇.1 x₁₇.2 h₁₇ r hr hk)
      · exact n₁₈ r.1 (parse_orchard_claims dec d x₁₈.1 x₁₈.2 h₁₈ r hr hk)
      · exact n₂₀ r.1 (parse_mnemonic_phrase_claims dec d x₂₀.1 x₂₀.2 h₂₀ r hr hk)
      · exact n₂₁ r.1 (parse_mnemonic_hd_chain_claims dec d x₂₁.1 x₂₁.2 h₂₁ r hr hk)
    · split at hB
      · rename_i hg
        simp only [List.mem_cons, List.not_mem_nil, or_false] at hB
        exact n₃ r.1 (parse_hdseed_claims dec d x₃.1 x₃.2 hg h₃ r hr hB)
      · exact absurd hB (List.not_mem_nil _)
    · split at hB
      · rename_i hg
        simp only [List.mem_cons, List.not_mem_nil, or_false] at hB
        exact n₇ r.1 (parse_opt_i64_claims dec d "orderposnext" x₇.1 x₇.2 hg h₇ r hr hB)
      · exact absurd hB (List.not_mem_nil _)
    · split at hB
      · rename_i hg
        simp only [List.mem_cons, List.not_mem_nil, or_false] at hB
        exact n₂₃ r.1 (parse_opt_block_locator_claims dec d "bestblock_nomerkle"
          x₂₃.1 x₂₃.2 hg h₂₃ r hr hB)
      · exact absurd hB (List.not_mem_nil _)
    · split at hB
      · rename_i hg
        simp only [List.mem_cons, List.not_mem_nil, or_false] at hB
        exact n₁₀ r.1 (parse_sapling_z_addresses_claims dec d x₁₀.1 x₁₀.2 hg h₁₀ r hr hB)
      · exact absurd hB (List.not_mem_nil _)
    · split at hB
      · rename_i hg
        simp only [List.mem_cons, List.not_mem_nil, or_false] at hB
        exact n₁₂ r.1 (parse_transactions_claims dec d false x₁₂.1 x₁₂.2.1 x₁₂.2.2
          hg h₁₂ r hr hB)
      · exact absurd hB (List.not_mem_nil _)
    · split at hB
      · rename_i hg
        simp only [List.mem_cons, List.not_mem_nil, or_false] at hB
        exact n₁₅ r.1 (parse_wallet_keys_claims dec d x₁₅.1 x₁₅.2 hg h₁₅ r hr hB)
      · exact absurd hB (List.not_mem_nil _)
    · split at hB
      · rename_i hg
        simp only [List.mem_cons, List.not_mem_nil, or_false] at hB
        exact n₂₂ r.1 (parse_send_recipients_claims dec d x₂₂.1 x₂₂.2 hg h₂₂ r hr hB)
      · exact absurd hB (List.not_mem_nil _)
    · split at hB
      · rename_i hg
        simp only [List.mem_cons, List.not_mem_nil, or_false] at hB
        exact n₁₁ r.1 (parse_sapling_keys_claims dec d x₁₁.1 x₁₁.2 hnd hg h₁₁ r hr hB)
      · exact absurd hB (List.not_mem_nil _)
    · split at hB
      · rename_i hg
        simp only [List.mem_cons, List.not_mem_nil, or_false] at hB
        exact n₁₆ r.1 (parse_sprout_keys_claims dec d x₁₆.1 x₁₆.2 hnd hg h₁₆ r hr hB)
      · exact absurd hB (List.not_mem_nil _)
    · split at hB
      · rename_i hg
        simp only [List.mem_cons, List.not_mem_nil, or_false] at hB
        exact n₁₉ r.1 (parse_unified_accounts_claims dec d x₁₉.1 x₁₉.2 hg h₁₉ r hr hB)
      · exact absurd hB (List.not_mem_nil _)

/-- Full lenient-pass dump: a well-formed `tx` record, a malformed one
(value starting 0xBB fails `txFailDec`), and one record of a category no
decoder processes. -/
def cexDumpT : ZcashdDump :=
  ⟨baseRecords ++ [(⟨"tx", [1]⟩, [170]), (⟨"tx", [2]⟩, [187]),
                   (⟨"unknowncat", [30]⟩, [15])]⟩

theorem C10_lenient_claims_witness :
    poeIsOk (ZcashdParser.parse txFailDec cexDumpT false) = true ∧
    (⟨"tx", [2]⟩ : DBKey) ∉ unclaimedOf (ZcashdParser.parse txFailDec cexDumpT false) ∧
    (⟨"keymeta", [10]⟩ : DBKey) ∉
      unclaimedOf (ZcashdParser.parse txFailDec cexDumpT false) := by
  have hhas : cexDumpT.has_keys_for_keyname "tx" = true := by decide
  have hrec : cexDumpT.records.filter (fun r => r.1.keyname = "tx") =
      [((⟨"tx", [1]⟩ : DBKey), ([170] : Bytes)), (⟨"tx", [2]⟩, [187])] := by decide
  have hle : recordLe ((⟨"tx", [1]⟩ : DBKey), ([170] : Bytes)) (⟨"tx", [2]⟩, [187]) =
      true := by decide
  have hsorted : (cexDumpT.records.filter (fun r => r.1.keyname = "tx")).mergeSort
      recordLe = [((⟨"tx", [1]⟩ : DBKey), ([170] : Bytes)), (⟨"tx", [2]⟩, [187])] := by
    rw [hrec]
    exact List.mergeSort_of_sorted (by simp [List.pairwise_cons, hle])
  have hpt : ZcashdParser.parse_transactions txFailDec cexDumpT false =
      .ok ([(⟨[1]⟩, ⟨[170]⟩)],
        [⟨"bb", .context "Parsing transaction" (.message "bad tx")⟩],
        insert (⟨"tx", [1]⟩ : DBKey) {⟨"tx", [2]⟩}) := by
    unfold ZcashdParser.parse_transactions
    rw [if_pos hhas, records_for_keyname_of_has cexDumpT "tx" hhas]
    simp only [ctxE_ok, excBind_ok]
    rw [hsorted]
    decide
  have hok : poeIsOk (ZcashdParser.parse txFailDec cexDumpT false) = true := by
    unfold ZcashdParser.parse
    rw [hpt]
    decide
  cases hp : ZcashdParser.parse txFailDec cexDumpT false with
  | none =>
    rw [hp] at hok
    simp [poeIsOk] at hok
  | some e =>
    cases e with
    | error err =>
      rw [hp] at hok
      simp [poeIsOk] at hok
    | ok p =>
      obtain ⟨w, u⟩ := p
      have h10 := C10_lenient_claims txFailDec cexDumpT w u (by decide) hp
      exact ⟨rfl, h10.2.1 (⟨"tx", [2]⟩, [187]) (by decide) rfl,
        h10.2.2 (⟨"keymeta", [10]⟩, [3]) (by decide) (by decide)⟩
